import Mathlib

/-!
The standard content store of the CCNx forwarder.

A shallow embedding of `model/forwarding/standard/ccnx-standard-content-store.cc`.
The file is read with `KEYIDHACK` defined (its other branch, `zKeyid = ???`, does not
compile); log statements are not modelled.

The store is a value of `CCNxStandardContentStore`; every member function that
mutates the store takes the store and returns the new one.  `Ptr<Entry>` sharing is
modelled by an arena (`m_entries`): the four maps and the LRU list hold handles
(indices into the arena), so an increment of a use count is seen through every
reference.  Assertions are enabled: a failed `NS_ASSERT_MSG` or a dereference of a null
`Ptr` is fatal, and is `Except.error` here.
-/

namespace CCNx

/-! ## Packets, messages, work items -/

/-- The value of a `CCNxByteArray` (a name segment, a hash, a key identifier). -/
abbrev CCNxByteArray := List Nat

/-- A `CCNxName`: an ordered sequence of segments, possibly empty. -/
structure CCNxName where
  segments : List CCNxByteArray
deriving DecidableEq, Repr

/-- The `GetSegmentCount ()` accessor of a name. -/
def CCNxName.GetSegmentCount (n : CCNxName) : Nat := n.segments.length

/-- The packet type carried by the fixed header. -/
inductive CCNxFixedHeaderType where
  | Interest
  | Object
  | InterestReturn
deriving DecidableEq, Repr

/-- The `CCNxMessage::MessageType` of a message. -/
inductive CCNxMessageType where
  | Interest
  | ContentObject
  | Other
deriving DecidableEq, Repr

/-- A `CCNxMessage`.  `name` is `GetName ()` (a nullable `Ptr`); the two restrictions
are the nullable `GetKeyidRestriction ()` and `GetHashRestriction ()` of an interest. -/
structure CCNxMessage where
  messageType : CCNxMessageType
  name : Option CCNxName
  keyidRestriction : Option CCNxByteArray
  hashRestriction : Option CCNxByteArray
deriving DecidableEq, Repr

/-- A `CCNxPacket`: fixed header type, message and content object hash. -/
structure CCNxPacket where
  packetType : CCNxFixedHeaderType
  message : CCNxMessage
  contentObjectHash : CCNxByteArray
deriving DecidableEq, Repr

/-- The `HasKeyidRestriction ()` accessor of an interest. -/
def CCNxMessage.HasKeyidRestriction (m : CCNxMessage) : Bool :=
  m.keyidRestriction.isSome

/-- A `CCNxStandardForwarderWorkItem`: the queued packet, the content store packet
slot filled by a lookup hit, and the egress connections kept for an insertion. -/
structure CCNxStandardForwarderWorkItem where
  packet : CCNxPacket
  contentStorePacket : Option CCNxPacket
  connectionsList : Option (List Nat)
deriving DecidableEq, Repr

/-- The `SetContentStorePacket` setter of a work item. -/
def CCNxStandardForwarderWorkItem.SetContentStorePacket
    (w : CCNxStandardForwarderWorkItem) (p : CCNxPacket) : CCNxStandardForwarderWorkItem :=
  { w with contentStorePacket := some p }

/-! ## Entries and their validity -/

/-- Modelled from the spec: the class `CCNxStandardContentStoreEntry` is not part of
these sources.  An entry wraps one stored packet and an unsigned use count. -/
structure CCNxStandardContentStoreEntry where
  packet : CCNxPacket
  useCount : Nat
deriving DecidableEq, Repr

/-- Modelled from the spec: `Create<CCNxStandardContentStoreEntry> (cPacket)`, a fresh
entry for the packet, not yet used. -/
def CCNxStandardContentStoreEntry.Create (cPacket : CCNxPacket) : CCNxStandardContentStoreEntry :=
  { packet := cPacket, useCount := 0 }

/-- Modelled from the spec: `IncrementUseCount ()`, the use count goes up by one. -/
def CCNxStandardContentStoreEntry.IncrementUseCount
    (e : CCNxStandardContentStoreEntry) : CCNxStandardContentStoreEntry :=
  { e with useCount := e.useCount + 1 }

/-- Modelled from the spec: the `IsExpired ()` and `IsStale ()` predicates of the entry
class, which is not part of these sources.  They depend on the simulation clock and on
an external authority, so they are taken as given at the time of each lookup. -/
structure EntryStatus where
  IsExpired : CCNxStandardContentStoreEntry → Bool
  IsStale : CCNxStandardContentStoreEntry → Bool

/-- Fatal outcomes: a failed `NS_ASSERT_MSG`, or the dereference of a null `Ptr`. -/
inductive Fatal where
  | assertFailed
  | nullPointer
deriving DecidableEq, Repr

/-- A completion callback slot: `Null` is the constructor default
(`NullMatchInterestCallback` / `NullAddContentObjectCallback`), `User` a callback
registered through `SetMatchInterestCallback` / `SetAddContentObjectCallback`. -/
inductive Callback where
  | Null
  | User
deriving DecidableEq, Repr

/-- Invoking a callback slot with a work item: the default callbacks assert false;
a registered callback receives the work item (recorded in the returned list). -/
def Callback.invoke (cb : Callback) (workItem : CCNxStandardForwarderWorkItem) :
    Except Fatal (List CCNxStandardForwarderWorkItem) :=
  match cb with
  | .Null => .error .assertFailed
  | .User => .ok [workItem]

/-! ## The maps (`std::map` keyed through a comparator on packets) -/

/-- A map from keys to entry handles, as an association list.  The functions below
assume but do not require that a key occurs once. -/
abbrev CSMap (κ : Type) := List (κ × Nat)

/-- The `find` member of a map: the handle stored under the key, if any. -/
def CSMap.find {κ : Type} [DecidableEq κ] (m : CSMap κ) (k : κ) : Option Nat :=
  match m with
  | [] => none
  | (k', v) :: rest => if k' = k then some v else CSMap.find rest k

/-- The `erase (key)` member of a map: the map without the key, and the number of
elements erased. -/
def CSMap.erase {κ : Type} [DecidableEq κ] (m : CSMap κ) (k : κ) : CSMap κ × Nat :=
  (m.filter (fun kv => !decide (kv.1 = k)), if (CSMap.find m k).isSome then 1 else 0)

/-- The assignment `m[key] = value`: the key is bound to the value, replacing an
earlier binding of the same key. -/
def CSMap.assign {κ : Type} [DecidableEq κ] (m : CSMap κ) (k : κ) (v : Nat) : CSMap κ :=
  (k, v) :: m.filter (fun kv => !decide (kv.1 = k))

/-- The `size ()` member of a map. -/
def CSMap.size {κ : Type} (m : CSMap κ) : Nat := m.length

/-- The keys of a map. -/
def CSMap.keys {κ : Type} (m : CSMap κ) : List κ := m.map Prod.fst

/-- The byte array of the `CCNxHashValue` built from the magic number 55 that
`KEYIDHACK` gives every content object as its key identifier. -/
def magicHashValue : CCNxByteArray := [55]

/-- The function `GetKeyidOrRestriction`: the value of the keyid restriction of an
interest, the magic key identifier of a content object, a null `Ptr` for any other
message type.  The restriction of an interest is dereferenced without a check
(`zInterest->GetKeyidRestriction()->GetValue()`): a null restriction is fatal. -/
def GetKeyidOrRestriction (z : CCNxPacket) : Except Fatal (Option CCNxByteArray) :=
  match z.message.messageType with
  | .Interest =>
    match z.message.keyidRestriction with
    | some keyid => .ok (some keyid)
    | none => .error .nullPointer
  | .ContentObject => .ok (some magicHashValue)
  | .Other => .ok none

/-- The function `GetHashOrRestriction`: the value of the hash restriction of an
interest, the content object hash of a content object, a null `Ptr` for any other
message type.  The restriction of an interest is dereferenced without a check
(`zInterest->GetHashRestriction()->GetValue()`): a null restriction is fatal. -/
def GetHashOrRestriction (z : CCNxPacket) : Except Fatal (Option CCNxByteArray) :=
  match z.message.messageType with
  | .Interest =>
    match z.message.hashRestriction with
    | some hash => .ok (some hash)
    | none => .error .nullPointer
  | .ContentObject => .ok (some z.contentObjectHash)
  | .Other => .ok none

/-- A call of one of the two functions above is fatal. -/
def isFatal (r : Except Fatal (Option CCNxByteArray)) : Bool :=
  match r with
  | .ok _ => false
  | .error _ => true

/-- The byte array a map is keyed by: what the key function returns, `none` for a null
`Ptr`.  A call that is fatal returns nothing; it is given `none` here so that a key is
defined for every packet, and the lookup that makes the call is fatal (see
`ServiceMatchInterest_findFatal`).  The two key functions are not fatal on a content
object; `FindEntryInHashMap`, `AddMapEntry` and `RemoveContentObject` are called with
the packet of an insertion or of a stored entry. -/
def keyValue (r : Except Fatal (Option CCNxByteArray)) : Option CCNxByteArray :=
  match r with
  | .ok value => value
  | .error _ => none

/-- Modelled from the spec: the comparator of `CSByHashType` (declared in the header,
which is not part of these sources); byHash is keyed by the hash. -/
def hashKey (p : CCNxPacket) : Option CCNxByteArray := keyValue (GetHashOrRestriction p)

/-- Modelled from the spec: the comparator of `CSByNameType`; byName is keyed by the
name (a null name is the key `none`). -/
def nameKey (p : CCNxPacket) : Option CCNxName := p.message.name

/-- Modelled from the spec: the comparator of `CSByNameKeyidType`; byNameKeyid is
keyed by the pair (name, keyid). -/
def nameKeyidKey (p : CCNxPacket) : Option CCNxName × Option CCNxByteArray :=
  (p.message.name, keyValue (GetKeyidOrRestriction p))

/-- Modelled from the spec: the comparator of `CSByHashKeyidType`; byHashKeyid is
keyed by the pair (hash, keyid). -/
def hashKeyidKey (p : CCNxPacket) : Option CCNxByteArray × Option CCNxByteArray :=
  (keyValue (GetHashOrRestriction p), keyValue (GetKeyidOrRestriction p))

/-! ## The store -/

/-- The state of a `CCNxStandardContentStore`.  `m_lruList` runs from the most
recently used handle (head) to the least recently used one (last). -/
structure CCNxStandardContentStore where
  m_objectCapacity : Nat
  m_matchInterestCallback : Callback
  m_addContentObjectCallback : Callback
  m_layerDelayConstant : Int
  m_layerDelaySlope : Int
  m_layerDelayServers : Nat
  m_entries : List CCNxStandardContentStoreEntry
  m_lruList : List Nat
  m_csByHash : CSMap (Option CCNxByteArray)
  m_csByName : CSMap (Option CCNxName)
  m_csByNameKeyid : CSMap (Option CCNxName × Option CCNxByteArray)
  m_csByHashKeyid : CSMap (Option CCNxByteArray × Option CCNxByteArray)
deriving DecidableEq, Repr

/-- The default capacity, `_defaultObjectCapacity`. -/
def _defaultObjectCapacity : Nat := 10000

/-- The default constant delay, `MicroSeconds (1)`, in nanoseconds. -/
def _defaultLayerDelayConstant : Int := 1000

/-- The default delay slope, `NanoSeconds (10)`, in nanoseconds. -/
def _defaultLayerDelaySlope : Int := 10

/-- The default number of servers of the input queue. -/
def _defaultLayerDelayServers : Nat := 1

/-- The constructor: default attributes, the two null callbacks, an empty LRU list and
empty maps. -/
def CCNxStandardContentStore.new : CCNxStandardContentStore :=
  { m_objectCapacity := _defaultObjectCapacity
    m_matchInterestCallback := .Null
    m_addContentObjectCallback := .Null
    m_layerDelayConstant := _defaultLayerDelayConstant
    m_layerDelaySlope := _defaultLayerDelaySlope
    m_layerDelayServers := _defaultLayerDelayServers
    m_entries := []
    m_lruList := []
    m_csByHash := []
    m_csByName := []
    m_csByNameKeyid := []
    m_csByHashKeyid := [] }

/-- The function `SetMatchInterestCallback`: registers the lookup completion callback. -/
def SetMatchInterestCallback (s : CCNxStandardContentStore) (cb : Callback) :
    CCNxStandardContentStore :=
  { s with m_matchInterestCallback := cb }

/-- The function `SetAddContentObjectCallback`: registers the insertion completion callback. -/
def SetAddContentObjectCallback (s : CCNxStandardContentStore) (cb : Callback) :
    CCNxStandardContentStore :=
  { s with m_addContentObjectCallback := cb }

/-- The `ObjectCapacity` attribute setter. -/
def SetObjectCapacity (s : CCNxStandardContentStore) (capacity : Nat) :
    CCNxStandardContentStore :=
  { s with m_objectCapacity := capacity }

/-! ## The LRU list -/

/-- Modelled from the spec: `CCNxStandardContentStoreLruList::GetSize`, the number of
entries in the eviction list (the class is not part of these sources). -/
def LruList_GetSize (l : List Nat) : Nat := l.length

/-- Modelled from the spec: `CCNxStandardContentStoreLruList::AddEntry`, which adds a
new entry as most recently used (insertFront) and reports success. -/
def LruList_AddEntry (l : List Nat) (entry : Nat) : List Nat × Bool :=
  (entry :: l, true)

/-- Modelled from the spec: `CCNxStandardContentStoreLruList::RefreshEntry`, which
moves an existing entry to the most recently used position (promote). -/
def LruList_RefreshEntry (l : List Nat) (entry : Nat) : List Nat :=
  entry :: l.erase entry

/-- Modelled from the spec: `CCNxStandardContentStoreLruList::GetTailPacket`, the packet
of the least recently used entry (peekBack); null when the list is empty. -/
def LruList_GetTailPacket (entries : List CCNxStandardContentStoreEntry) (l : List Nat) :
    Option CCNxPacket :=
  match l.getLast? with
  | none => none
  | some entry => (entries[entry]?).map (fun e => e.packet)

/-- The entry behind a handle wraps the packet. -/
def wrapsPacket (entries : List CCNxStandardContentStoreEntry) (cPacket : CCNxPacket)
    (entry : Nat) : Bool :=
  match entries[entry]? with
  | some e => decide (e.packet = cPacket)
  | none => false

/-- Modelled from the spec: `DeleteLruListPacket`, declared in the header and defined
outside these sources: the entry that wraps the packet leaves the eviction list. -/
def DeleteLruListPacket (s : CCNxStandardContentStore) (cPacket : CCNxPacket) :
    CCNxStandardContentStore :=
  { s with m_lruList := s.m_lruList.eraseP (wrapsPacket s.m_entries cPacket) }

/-! ## The member functions of the store -/

/-- The function `GetObjectCount`: the size of the LRU list (a mismatch with the size
of the hash map is only logged). -/
def GetObjectCount (s : CCNxStandardContentStore) : Nat :=
  LruList_GetSize s.m_lruList

/-- The function `GetObjectCapacity`: the configured capacity. -/
def GetObjectCapacity (s : CCNxStandardContentStore) : Nat :=
  s.m_objectCapacity

/-- The function `IsEntryValid`: an entry is dead when it is expired or stale, and
valid otherwise. -/
def IsEntryValid (st : EntryStatus) (entry : CCNxStandardContentStoreEntry) : Bool :=
  let dead := st.IsExpired entry || st.IsStale entry
  !dead

/-- The function `FindEntryInHashMap`: checks the hash map only. -/
def FindEntryInHashMap (s : CCNxStandardContentStore) (cPacket : CCNxPacket) : Option Nat :=
  CSMap.find s.m_csByHash (hashKey cPacket)

/-- The function `RemoveContentObject`: erases the packet from the hash map; when that
erased something, from the name maps (named packet) or the hash and keyid map
(nameless packet); when the last erase erased something, from the LRU list.  Returns
the result of the last erase. -/
def RemoveContentObject (s : CCNxStandardContentStore) (cPacket : CCNxPacket) :
    CCNxStandardContentStore × Bool :=
  let byHash := CSMap.erase s.m_csByHash (hashKey cPacket)
  let s1 := { s with m_csByHash := byHash.1 }
  let result1 := decide (byHash.2 ≠ 0)
  let r2 : CCNxStandardContentStore × Bool :=
    if result1 then
      if cPacket.message.name.isSome then
        let byName := CSMap.erase s1.m_csByName (nameKey cPacket)
        let byNameKeyid := CSMap.erase s1.m_csByNameKeyid (nameKeyidKey cPacket)
        ({ s1 with m_csByName := byName.1, m_csByNameKeyid := byNameKeyid.1 },
          decide (byNameKeyid.2 ≠ 0))
      else
        let byHashKeyid := CSMap.erase s1.m_csByHashKeyid (hashKeyidKey cPacket)
        ({ s1 with m_csByHashKeyid := byHashKeyid.1 }, decide (byHashKeyid.2 ≠ 0))
    else (s1, result1)
  if r2.2 then (DeleteLruListPacket r2.1 cPacket, r2.2) else r2

/-- The function `AddMapEntry`: casts the message to a content object (a null
`content` is dereferenced when the message is not one), binds the packet to the new
entry in the hash map, and in the name map and the name and keyid map when the packet
has a name; a nameless packet is bound in the name and keyid map (`m_csByNameKeyid`),
as the source does.  Returns true. -/
def AddMapEntry (s : CCNxStandardContentStore) (cPacket : CCNxPacket) (newEntry : Nat) :
    Except Fatal (CCNxStandardContentStore × Bool) :=
  if cPacket.message.messageType ≠ .ContentObject then .error .nullPointer
  else
    let s1 := { s with m_csByHash := CSMap.assign s.m_csByHash (hashKey cPacket) newEntry }
    let s2 :=
      if cPacket.message.name.isSome then
        { s1 with
          m_csByName := CSMap.assign s1.m_csByName (nameKey cPacket) newEntry
          m_csByNameKeyid := CSMap.assign s1.m_csByNameKeyid (nameKeyidKey cPacket) newEntry }
      else
        { s1 with
          m_csByNameKeyid := CSMap.assign s1.m_csByNameKeyid (nameKeyidKey cPacket) newEntry }
    .ok (s2, true)

/-- The condition `interest->GetName () and interest->GetName ()->GetSegmentCount ()`:
the name is present and has at least one segment. -/
def hasNameWithSegments (interest : CCNxMessage) : Bool :=
  match interest.name with
  | some name => decide (name.GetSegmentCount ≠ 0)
  | none => false

/-- The map consulted by `ServiceMatchInterest` (the four-way branch on the name and
the keyid restriction of the interest) and the entry found there, if any.  Whether the
`find` is fatal is `ServiceMatchInterest_findFatal`. -/
def ServiceMatchInterest_find (s : CCNxStandardContentStore)
    (workItem : CCNxStandardForwarderWorkItem) : Option Nat :=
  let interest := workItem.packet.message
  if hasNameWithSegments interest then
    if interest.HasKeyidRestriction then
      CSMap.find s.m_csByNameKeyid (nameKeyidKey workItem.packet)
    else
      CSMap.find s.m_csByName (nameKey workItem.packet)
  else
    if interest.HasKeyidRestriction then
      CSMap.find s.m_csByHashKeyid (hashKeyidKey workItem.packet)
    else
      CSMap.find s.m_csByHash (hashKey workItem.packet)

/-- Modelled from the spec: the comparators of the four maps are declared in the
header, which is not part of these sources.  The `find` of a map that holds at least
one element compares the packet looked up with a stored one, which calls the key
functions of that map on it; the `find` of an empty map compares nothing.  This is
whether the `find` of `ServiceMatchInterest` is fatal: the map it consults holds an
element and a key function of that map dereferences a null restriction of the
interest. -/
def ServiceMatchInterest_findFatal (s : CCNxStandardContentStore)
    (workItem : CCNxStandardForwarderWorkItem) : Bool :=
  let interest := workItem.packet.message
  if hasNameWithSegments interest then
    if interest.HasKeyidRestriction then
      !s.m_csByNameKeyid.isEmpty && isFatal (GetKeyidOrRestriction workItem.packet)
    else
      false
  else
    if interest.HasKeyidRestriction then
      !s.m_csByHashKeyid.isEmpty
        && (isFatal (GetHashOrRestriction workItem.packet)
            || isFatal (GetKeyidOrRestriction workItem.packet))
    else
      !s.m_csByHash.isEmpty && isFatal (GetHashOrRestriction workItem.packet)

/-- The function `ServiceMatchInterest`: asserts an Interest packet, looks in one map
only (fatal when the comparator of that map dereferences a null restriction); a valid
entry has its use count incremented, is refreshed in the LRU list and its packet is set
on the work item; an invalid entry is removed; then the callback is invoked.  Returns
the new store and the work items handed to the callback. -/
def ServiceMatchInterest (st : EntryStatus) (s : CCNxStandardContentStore)
    (workItem : CCNxStandardForwarderWorkItem) :
    Except Fatal (CCNxStandardContentStore × List CCNxStandardForwarderWorkItem) :=
  if workItem.packet.packetType ≠ .Interest then .error .assertFailed
  else if workItem.packet.message.messageType ≠ .Interest then .error .nullPointer
  else if ServiceMatchInterest_findFatal s workItem then .error .nullPointer
  else
    match ServiceMatchInterest_find s workItem with
    | some entry =>
      match s.m_entries[entry]? with
      | none => .error .nullPointer
      | some e =>
        if IsEntryValid st e then
          let s1 := { s with m_entries := s.m_entries.set entry e.IncrementUseCount }
          let s2 := { s1 with m_lruList := LruList_RefreshEntry s1.m_lruList entry }
          let workItem1 := workItem.SetContentStorePacket e.packet
          match s2.m_matchInterestCallback.invoke workItem1 with
          | .error f => .error f
          | .ok cbs => .ok (s2, cbs)
        else
          let s1 := (RemoveContentObject s e.packet).1
          match s1.m_matchInterestCallback.invoke workItem with
          | .error f => .error f
          | .ok cbs => .ok (s1, cbs)
    | none =>
      match s.m_matchInterestCallback.invoke workItem with
      | .error f => .error f
      | .ok cbs => .ok (s, cbs)

/-- What a serviced insertion leaves: the new store, the final value of the local
`result`, and the work items handed to the callback. -/
structure AddContentObjectOutcome where
  store : CCNxStandardContentStore
  result : Bool
  callbacks : List CCNxStandardForwarderWorkItem
deriving DecidableEq, Repr

/-- The part of `ServiceAddContentObject` that makes room for the new entry:
`result = GetObjectCount() < GetObjectCapacity()`, and when that is false the packet at
the tail of the LRU list is removed and `result` is what the removal returns. -/
def ServiceAddContentObject_evict (s0 : CCNxStandardContentStore) :
    Except Fatal (CCNxStandardContentStore × Bool) :=
  if GetObjectCount s0 < GetObjectCapacity s0 then .ok (s0, true)
  else
    match LruList_GetTailPacket s0.m_entries s0.m_lruList with
    | none => .error .nullPointer
    | some tailPacket => .ok (RemoveContentObject s0 tailPacket)

/-- The part of `ServiceAddContentObject` that stores the new entry: when `result`
holds the entry is added to the LRU list, and when `result` still holds it is added to
the maps. -/
def ServiceAddContentObject_add (s1 : CCNxStandardContentStore) (result1 : Bool)
    (cPacket : CCNxPacket) (newEntry : Nat) :
    Except Fatal (CCNxStandardContentStore × Bool) :=
  let added : CCNxStandardContentStore × Bool :=
    if result1 then
      let r := LruList_AddEntry s1.m_lruList newEntry
      ({ s1 with m_lruList := r.1 }, r.2)
    else (s1, result1)
  if added.2 then AddMapEntry added.1 cPacket newEntry else .ok added

/-- The function `ServiceAddContentObject`: when the hash map has no entry for the
packet, a new entry is created; a full store first removes the packet at the tail of
the LRU list; on success the entry is added to the LRU list, and on success to the
maps.  The callback is invoked in every case. -/
def ServiceAddContentObject (s : CCNxStandardContentStore)
    (workItem : CCNxStandardForwarderWorkItem) : Except Fatal AddContentObjectOutcome :=
  let cPacket := workItem.packet
  match FindEntryInHashMap s cPacket with
  | some _ =>
    match s.m_addContentObjectCallback.invoke workItem with
    | .error f => .error f
    | .ok cbs => .ok { store := s, result := false, callbacks := cbs }
  | none =>
    let newEntry := s.m_entries.length
    let s0 := { s with m_entries := s.m_entries ++ [CCNxStandardContentStoreEntry.Create cPacket] }
    match ServiceAddContentObject_evict s0 with
    | .error f => .error f
    | .ok (s1, result1) =>
      match ServiceAddContentObject_add s1 result1 cPacket newEntry with
      | .error f => .error f
      | .ok (s3, result3) =>
        match s3.m_addContentObjectCallback.invoke workItem with
        | .error f => .error f
        | .ok cbs => .ok { store := s3, result := result3, callbacks := cbs }

/-- Servicing a sequence of insertions, one after the other. -/
def ServiceAddContentObjects (s : CCNxStandardContentStore) :
    List CCNxStandardForwarderWorkItem → Except Fatal CCNxStandardContentStore
  | [] => .ok s
  | workItem :: rest =>
    match ServiceAddContentObject s workItem with
    | .error f => .error f
    | .ok o => ServiceAddContentObjects o.store rest

/-! ## The lookup dispatch as the specification words it -/

/-- The four lookup strategies, each naming the one index it consults. -/
inductive LookupStrategy where
  | byNameKeyid
  | byName
  | byHashKeyid
  | byHash
deriving DecidableEq, Repr

/-- The dispatch of the specification: (name present, keyid restriction present)
selects the strategy. -/
def lookupStrategy (hasName hasKeyidRestriction : Bool) : LookupStrategy :=
  match hasName, hasKeyidRestriction with
  | true, true => .byNameKeyid
  | true, false => .byName
  | false, true => .byHashKeyid
  | false, false => .byHash

/-- Consulting the one index a strategy names, with the key of the request packet. -/
def LookupStrategy.consult (sel : LookupStrategy) (s : CCNxStandardContentStore)
    (p : CCNxPacket) : Option Nat :=
  match sel with
  | .byNameKeyid => CSMap.find s.m_csByNameKeyid (nameKeyidKey p)
  | .byName => CSMap.find s.m_csByName (nameKey p)
  | .byHashKeyid => CSMap.find s.m_csByHashKeyid (hashKeyidKey p)
  | .byHash => CSMap.find s.m_csByHash (hashKey p)

/-- Two stores hold the same index for a strategy. -/
def LookupStrategy.sameIndex (sel : LookupStrategy) (s s' : CCNxStandardContentStore) : Prop :=
  match sel with
  | .byNameKeyid => s.m_csByNameKeyid = s'.m_csByNameKeyid
  | .byName => s.m_csByName = s'.m_csByName
  | .byHashKeyid => s.m_csByHashKeyid = s'.m_csByHashKeyid
  | .byHash => s.m_csByHash = s'.m_csByHash

/-- Two packets have the same key in the index a strategy names. -/
def LookupStrategy.sameKey (sel : LookupStrategy) (p q : CCNxPacket) : Prop :=
  match sel with
  | .byNameKeyid => nameKeyidKey p = nameKeyidKey q
  | .byName => nameKey p = nameKey q
  | .byHashKeyid => hashKeyidKey p = hashKeyidKey q
  | .byHash => hashKey p = hashKey q

instance (sel : LookupStrategy) (s s' : CCNxStandardContentStore) :
    Decidable (sel.sameIndex s s') := by
  cases sel <;> unfold LookupStrategy.sameIndex <;> infer_instance

instance (sel : LookupStrategy) (p q : CCNxPacket) : Decidable (sel.sameKey p q) := by
  cases sel <;> unfold LookupStrategy.sameKey <;> infer_instance

/-- The strategy `ServiceMatchInterest` follows for a request: the name counts as
present when it has at least one segment. -/
def strategyOf (p : CCNxPacket) : LookupStrategy :=
  lookupStrategy (hasNameWithSegments p.message) p.message.HasKeyidRestriction

/-! ## Reachable states -/

/-- Every binding of a map refers to an entry of the LRU list whose packet has the key
it is bound under. -/
def BindingsOk {κ : Type} (entries : List CCNxStandardContentStoreEntry) (lru : List Nat)
    (key : CCNxPacket → κ) (m : CSMap κ) : Prop :=
  ∀ kh ∈ m, kh.2 ∈ lru ∧ ∃ e, entries[kh.2]? = some e ∧ key e.packet = kh.1

/-- The representation invariant of the store: the LRU list holds distinct, live
handles; the hash and keyid map is empty; every binding of the other three maps refers
to an entry of the LRU list that wraps a packet with that key; no key of the hash map
is null. -/
structure StoreInv (s : CCNxStandardContentStore) : Prop where
  lru_nodup : s.m_lruList.Nodup
  lru_valid : ∀ h ∈ s.m_lruList, h < s.m_entries.length
  byHashKeyid_empty : s.m_csByHashKeyid = []
  byHash_some : ∀ kh ∈ s.m_csByHash, kh.1 ≠ none
  byHash_ok : BindingsOk s.m_entries s.m_lruList hashKey s.m_csByHash
  byName_ok : BindingsOk s.m_entries s.m_lruList nameKey s.m_csByName
  byNameKeyid_ok : BindingsOk s.m_entries s.m_lruList nameKeyidKey s.m_csByNameKeyid

/-- The store after construction and configuration: an empty store with a capacity
and the two callback slots as given. -/
def emptyStore (capacity : Nat) (matchCb addCb : Callback) : CCNxStandardContentStore :=
  SetAddContentObjectCallback
    (SetMatchInterestCallback (SetObjectCapacity CCNxStandardContentStore.new capacity) matchCb)
    addCb

/-- The states reachable from an empty store by serviced lookups and insertions. -/
inductive Reachable : CCNxStandardContentStore → Prop where
  | init (capacity : Nat) (matchCb addCb : Callback) :
      Reachable (emptyStore capacity matchCb addCb)
  | matchInterest (st : EntryStatus) (s s' : CCNxStandardContentStore)
      (workItem : CCNxStandardForwarderWorkItem)
      (cbs : List CCNxStandardForwarderWorkItem) :
      Reachable s → ServiceMatchInterest st s workItem = .ok (s', cbs) → Reachable s'
  | addContentObject (s : CCNxStandardContentStore)
      (workItem : CCNxStandardForwarderWorkItem) (o : AddContentObjectOutcome) :
      Reachable s → ServiceAddContentObject s workItem = .ok o → Reachable o.store

/-! ## The service stage -/

/-- The value a signed 64-bit integer holds after an arithmetic result `x`: `x` wrapped
into the range from -2^63 to 2^63 - 1. -/
def wrapInt64 (x : Int) : Int :=
  (x + 2 ^ 63) % 2 ^ 64 - 2 ^ 63

/-- The loop of `GetServiceTime` over the segments of a name: `nameBytes`, a `size_t`
(64 bits, unsigned), starts at 0 and grows by the size of the value of each segment, in
order. -/
def nameBytes (name : CCNxName) : Nat :=
  name.segments.foldl (fun acc segment => (acc + segment.length) % 2 ^ 64) 0

/-- The function `GetServiceTime`: the constant delay, plus the slope times the number
of name bytes when the packet has a name.  A `Time` is its number of nanoseconds, a
signed 64-bit integer: `nameBytes` is converted to one, and the product and the sum
are 64-bit operations, which wrap. -/
def GetServiceTime (s : CCNxStandardContentStore)
    (workItem : CCNxStandardForwarderWorkItem) : Int :=
  let delay := s.m_layerDelayConstant
  match workItem.packet.message.name with
  | some name =>
    wrapInt64 (delay + wrapInt64 (s.m_layerDelaySlope * wrapInt64 (nameBytes name : Int)))
  | none => delay

/-- The range of a signed 64-bit integer. -/
def fitsInt64 (x : Int) : Prop :=
  -(2 ^ 63) ≤ x ∧ x < 2 ^ 63

instance (x : Int) : Decidable (fitsInt64 x) := by
  unfold fitsInt64; infer_instance

/-- The total byte length of the segments of a name, as the specification words it:
the sum of the byte lengths of all segments. -/
def totalSegmentBytes (name : Option CCNxName) : Nat :=
  match name with
  | some n => (n.segments.map List.length).sum
  | none => 0

/-- The function `ServiceInputQueue`: the switch on the packet type of the fixed
header.  An Interest goes to `ServiceMatchInterest`, an Object to
`ServiceAddContentObject`, any other type fails the assertion.  Returns the new store
and the work items handed to the callbacks. -/
def ServiceInputQueue (st : EntryStatus) (s : CCNxStandardContentStore)
    (workItem : CCNxStandardForwarderWorkItem) :
    Except Fatal (CCNxStandardContentStore × List CCNxStandardForwarderWorkItem) :=
  match workItem.packet.packetType with
  | .Interest => ServiceMatchInterest st s workItem
  | .Object =>
    match ServiceAddContentObject s workItem with
    | .error f => .error f
    | .ok o => .ok (o.store, o.callbacks)
  | _ => .error .assertFailed

/-- Bounds that hold in every reachable state: the hash map binds each key once, and
the LRU list holds no more entries than the capacity. -/
structure StoreBounds (s : CCNxStandardContentStore) : Prop where
  keys_nodup : (CSMap.keys s.m_csByHash).Nodup
  count_le : s.m_lruList.length ≤ s.m_objectCapacity

/-! ## Concrete packets used to evaluate the store -/

/-- A content object packet with the given name (possibly none) and hash. -/
def contentObject (name : Option CCNxName) (hash : CCNxByteArray) : CCNxPacket :=
  { packetType := .Object
    message := { messageType := .ContentObject, name := name,
                 keyidRestriction := none, hashRestriction := none }
    contentObjectHash := hash }

/-- An interest packet with the given name, keyid restriction and hash restriction. -/
def interest (name : Option CCNxName) (keyid hash : Option CCNxByteArray) : CCNxPacket :=
  { packetType := .Interest
    message := { messageType := .Interest, name := name,
                 keyidRestriction := keyid, hashRestriction := hash }
    contentObjectHash := [] }

/-- A work item as queued: no content store packet, no egress connections. -/
def workItemOf (p : CCNxPacket) : CCNxStandardForwarderWorkItem :=
  { packet := p, contentStorePacket := none, connectionsList := none }

/-- Every entry is fresh: nothing is expired, nothing is stale. -/
def allValid : EntryStatus :=
  { IsExpired := fun _ => false, IsStale := fun _ => false }

/-- Every entry is expired. -/
def allExpired : EntryStatus :=
  { IsExpired := fun _ => true, IsStale := fun _ => false }

/-- The store a sequence of serviced insertions leaves, or the store unchanged from
the point where an insertion is fatal. -/
def storeAfter (s : CCNxStandardContentStore) (ps : List CCNxPacket) :
    CCNxStandardContentStore :=
  match ServiceAddContentObjects s (ps.map workItemOf) with
  | .ok s' => s'
  | .error _ => s

/-- A store of capacity 2 holding one object named by the single segment 1, hash 7. -/
def storeWithOneNamed : CCNxStandardContentStore :=
  storeAfter (emptyStore 2 .User .User) [contentObject (some ⟨[[1]]⟩) [7]]

/-- Two work items to insert: a named object with hash 7 and a nameless one with
hash 8. -/
def twoObjects : List CCNxStandardForwarderWorkItem :=
  [workItemOf (contentObject (some ⟨[[1]]⟩) [7]), workItemOf (contentObject none [8])]

/-- A store of capacity 2 holding two objects with different names and hashes; the
one named 1 was inserted first. -/
def storeWithTwoNamed : CCNxStandardContentStore :=
  storeAfter (emptyStore 2 .User .User)
    [contentObject (some ⟨[[1]]⟩) [7], contentObject (some ⟨[[2]]⟩) [8]]

/-- A store of capacity 2 holding two objects with the same name and different
hashes. -/
def storeWithSameName : CCNxStandardContentStore :=
  storeAfter (emptyStore 2 .User .User)
    [contentObject (some ⟨[[1]]⟩) [7], contentObject (some ⟨[[1]]⟩) [8]]

/-- A store of the given capacity holding one nameless object with hash 7. -/
def storeWithOneNameless (capacity : Nat) : CCNxStandardContentStore :=
  storeAfter (emptyStore capacity .User .User) [contentObject none [7]]

/-- The store a serviced lookup leaves, or the store unchanged when the lookup is
fatal. -/
def storeAfterLookup (st : EntryStatus) (s : CCNxStandardContentStore)
    (workItem : CCNxStandardForwarderWorkItem) : CCNxStandardContentStore :=
  match ServiceMatchInterest st s workItem with
  | .ok r => r.1
  | .error _ => s

/-- A store of capacity 1 holding one object named by the single segment 1, hash 7. -/
def storeWithOneNamedFull : CCNxStandardContentStore :=
  storeAfter (emptyStore 1 .User .User) [contentObject (some ⟨[[1]]⟩) [7]]

/-- A store of capacity 2 reached without any expiry: two objects with the same name
are inserted, the older one is looked up by its hash, and a third object with another
name is inserted, which evicts the newer of the two and erases the shared name keys. -/
def storeAfterSharedNameEviction : CCNxStandardContentStore :=
  storeAfter
    (storeAfterLookup allValid storeWithSameName (workItemOf (interest none none (some [7]))))
    [contentObject (some ⟨[[2]]⟩) [9]]

/-! ## Lemmas on the maps -/

theorem CSMap.find_filter_ne {κ : Type} [DecidableEq κ] (m : CSMap κ) (k k' : κ)
    (h : k ≠ k') :
    CSMap.find (m.filter (fun kv => !decide (kv.1 = k'))) k = CSMap.find m k := by
  induction m with
  | nil => rfl
  | cons kv rest ih =>
    obtain ⟨a, v⟩ := kv
    by_cases ha : a = k'
    · subst ha
      have hne : ¬ a = k := fun e => h e.symm
      simp only [List.filter_cons, decide_True, Bool.not_true, CSMap.find, hne, if_false]
      simpa using ih
    · by_cases hk : a = k
      · subst hk
        simp [List.filter_cons, CSMap.find, h]
      · simp only [List.filter_cons, ha, decide_False, Bool.not_false, if_true, CSMap.find, hk,
          if_false]
        exact ih

theorem CSMap.find_filter_self {κ : Type} [DecidableEq κ] (m : CSMap κ) (k : κ) :
    CSMap.find (m.filter (fun kv => !decide (kv.1 = k))) k = none := by
  induction m with
  | nil => rfl
  | cons kv rest ih =>
    obtain ⟨a, v⟩ := kv
    by_cases ha : a = k
    · simp only [List.filter_cons, ha, decide_True, Bool.not_true]
      simpa using ih
    · simp only [List.filter_cons, ha, decide_False, Bool.not_false, if_true, CSMap.find,
        if_false]
      exact ih

theorem CSMap.find_assign_self {κ : Type} [DecidableEq κ] (m : CSMap κ) (k : κ) (v : Nat) :
    CSMap.find (CSMap.assign m k v) k = some v := by
  simp [CSMap.assign, CSMap.find]

theorem CSMap.find_assign_ne {κ : Type} [DecidableEq κ] (m : CSMap κ) (k k' : κ) (v : Nat)
    (h : k ≠ k') :
    CSMap.find (CSMap.assign m k' v) k = CSMap.find m k := by
  have hne : ¬ k' = k := fun e => h e.symm
  simp only [CSMap.assign, CSMap.find, hne, if_false]
  exact CSMap.find_filter_ne m k k' h

theorem CSMap.find_erase_ne {κ : Type} [DecidableEq κ] (m : CSMap κ) (k k' : κ)
    (h : k ≠ k') :
    CSMap.find (CSMap.erase m k').1 k = CSMap.find m k := by
  simp only [CSMap.erase]
  exact CSMap.find_filter_ne m k k' h

theorem CSMap.find_isSome_iff {κ : Type} [DecidableEq κ] (m : CSMap κ) (k : κ) :
    (CSMap.find m k).isSome = true ↔ k ∈ CSMap.keys m := by
  induction m with
  | nil => simp [CSMap.find, CSMap.keys]
  | cons kv rest ih =>
    obtain ⟨a, v⟩ := kv
    by_cases ha : a = k
    · simp [CSMap.find, CSMap.keys, ha]
    · have hk : ¬ k = a := fun e => ha e.symm
      simp only [CSMap.find, ha, if_false, ih]
      simp [CSMap.keys, hk]

theorem CSMap.find_eq_none_iff {κ : Type} [DecidableEq κ] (m : CSMap κ) (k : κ) :
    CSMap.find m k = none ↔ k ∉ CSMap.keys m := by
  rw [← CSMap.find_isSome_iff]
  cases CSMap.find m k <;> simp

theorem CSMap.mem_of_find {κ : Type} [DecidableEq κ] (m : CSMap κ) (k : κ) (v : Nat)
    (h : CSMap.find m k = some v) : (k, v) ∈ m := by
  induction m with
  | nil => simp [CSMap.find] at h
  | cons kv rest ih =>
    obtain ⟨a, b⟩ := kv
    by_cases ha : a = k
    · simp [CSMap.find, ha] at h
      simp [ha, h]
    · simp [CSMap.find, ha] at h
      exact List.mem_cons_of_mem _ (ih h)

theorem CSMap.filter_of_not_mem {κ : Type} [DecidableEq κ] (m : CSMap κ) (k : κ)
    (h : k ∉ CSMap.keys m) : m.filter (fun kv => !decide (kv.1 = k)) = m := by
  rw [List.filter_eq_self]
  intro kv hkv
  have : kv.1 ≠ k := by
    intro e
    apply h
    rw [← e]
    exact List.mem_map_of_mem Prod.fst hkv
  simp [this]

/-! ## Lemmas on the lookup -/

theorem ServiceMatchInterest_find_eq_consult (s : CCNxStandardContentStore)
    (workItem : CCNxStandardForwarderWorkItem) :
    ServiceMatchInterest_find s workItem
      = (strategyOf workItem.packet).consult s workItem.packet := by
  unfold ServiceMatchInterest_find strategyOf
  cases hn : hasNameWithSegments workItem.packet.message <;>
    cases hk : workItem.packet.message.HasKeyidRestriction <;>
    simp [hn, hk, lookupStrategy, LookupStrategy.consult]

/-! ## Lemmas on a serviced insertion -/

/-- An insertion of a content object whose hash is not stored, into a store with room
and a registered callback: the entry is created, linked first in the LRU list and bound
in the hash map. -/
theorem ServiceAddContentObject_room (s : CCNxStandardContentStore)
    (workItem : CCNxStandardForwarderWorkItem)
    (hcb : s.m_addContentObjectCallback = .User)
    (hobj : workItem.packet.message.messageType = .ContentObject)
    (hnew : hashKey workItem.packet ∉ CSMap.keys s.m_csByHash)
    (hroom : s.m_lruList.length < s.m_objectCapacity) :
    ∃ o, ServiceAddContentObject s workItem = .ok o
      ∧ o.result = true ∧ o.callbacks = [workItem]
      ∧ o.store.m_addContentObjectCallback = .User
      ∧ o.store.m_objectCapacity = s.m_objectCapacity
      ∧ o.store.m_entries
          = s.m_entries ++ [CCNxStandardContentStoreEntry.Create workItem.packet]
      ∧ o.store.m_lruList = s.m_entries.length :: s.m_lruList
      ∧ o.store.m_csByHash
          = (hashKey workItem.packet, s.m_entries.length) :: s.m_csByHash := by
  have hfind : CSMap.find s.m_csByHash (hashKey workItem.packet) = none :=
    (CSMap.find_eq_none_iff _ _).mpr hnew
  have hfilter := CSMap.filter_of_not_mem _ _ hnew
  by_cases hname : workItem.packet.message.name.isSome = true
  · simp only [ServiceAddContentObject, ServiceAddContentObject_evict,
      ServiceAddContentObject_add, FindEntryInHashMap, hfind, GetObjectCount,
      GetObjectCapacity, LruList_GetSize, hroom, if_true, LruList_AddEntry, AddMapEntry,
      hobj, ne_eq, not_true_eq_false, if_false, hname, hcb, Callback.invoke]
    refine ⟨_, rfl, ?_⟩
    simp [CSMap.assign, hfilter, hcb]
  · simp only [ServiceAddContentObject, ServiceAddContentObject_evict,
      ServiceAddContentObject_add, FindEntryInHashMap, hfind, GetObjectCount,
      GetObjectCapacity, LruList_GetSize, hroom, if_true, LruList_AddEntry, AddMapEntry,
      hobj, ne_eq, not_true_eq_false, if_false, hname, hcb, Callback.invoke]
    refine ⟨_, rfl, ?_⟩
    simp [CSMap.assign, hfilter, hcb]

/-- A sequence of insertions of content objects with pairwise distinct hashes, none of
them stored, into a store with room for all of them: every insertion is serviced, the
LRU list grows by one entry per object, the hash map gains exactly their keys, and
each object is bound in the hash map to an entry that wraps it. -/
theorem ServiceAddContentObjects_room (ws : List CCNxStandardForwarderWorkItem) :
    ∀ s : CCNxStandardContentStore, s.m_addContentObjectCallback = .User →
      (∀ w ∈ ws, w.packet.message.messageType = .ContentObject) →
      (ws.map (fun w => hashKey w.packet)).Nodup →
      (∀ w ∈ ws, hashKey w.packet ∉ CSMap.keys s.m_csByHash) →
      s.m_lruList.length + ws.length ≤ s.m_objectCapacity →
      ∃ s', ServiceAddContentObjects s ws = .ok s'
        ∧ s'.m_lruList.length = s.m_lruList.length + ws.length
        ∧ CSMap.keys s'.m_csByHash
            = (ws.map (fun w => hashKey w.packet)).reverse ++ CSMap.keys s.m_csByHash
        ∧ (∀ k, k ∉ ws.map (fun w => hashKey w.packet) →
            CSMap.find s'.m_csByHash k = CSMap.find s.m_csByHash k)
        ∧ (∀ i, i < s.m_entries.length → s'.m_entries[i]? = s.m_entries[i]?)
        ∧ (∀ w ∈ ws, ∃ entry, CSMap.find s'.m_csByHash (hashKey w.packet) = some entry
            ∧ s'.m_entries[entry]? = some (CCNxStandardContentStoreEntry.Create w.packet)) := by
  induction ws with
  | nil =>
    intro s _ _ _ _ _
    exact ⟨s, rfl, by simp, by simp, fun _ _ => rfl, fun _ _ => rfl, by simp⟩
  | cons w rest ih =>
    intro s hcb hobj hnodup hnew hroom
    have hw : w ∈ w :: rest := List.mem_cons_self _ _
    simp only [List.map_cons, List.nodup_cons] at hnodup
    simp only [List.length_cons] at hroom
    obtain ⟨o, ho, -, -, hocb, hocap, hoent, holru, hohash⟩ :=
      ServiceAddContentObject_room s w hcb (hobj w hw) (hnew w hw) (by omega)
    have hnew' : ∀ w' ∈ rest, hashKey w'.packet ∉ CSMap.keys o.store.m_csByHash := by
      intro w' hw'
      rw [hohash]
      simp only [CSMap.keys, List.map_cons, List.mem_cons, not_or]
      refine ⟨?_, hnew w' (List.mem_cons_of_mem _ hw')⟩
      intro e
      exact hnodup.1 (e ▸ List.mem_map_of_mem (fun w => hashKey w.packet) hw')
    obtain ⟨s', hs', hlen, hkeys, hfind, hent, hall⟩ :=
      ih o.store hocb (fun w' hw' => hobj w' (List.mem_cons_of_mem _ hw')) hnodup.2 hnew'
        (by rw [holru, hocap]; simp only [List.length_cons]; omega)
    have hfindw : CSMap.find s'.m_csByHash (hashKey w.packet) = some s.m_entries.length := by
      rw [hfind _ hnodup.1, hohash]
      simp [CSMap.find]
    have hentw : s'.m_entries[s.m_entries.length]?
        = some (CCNxStandardContentStoreEntry.Create w.packet) := by
      rw [hent _ (by rw [hoent]; simp), hoent]
      simp
    refine ⟨s', ?_, ?_, ?_, ?_, ?_, ?_⟩
    · simp only [ServiceAddContentObjects, ho, hs']
    · rw [hlen, holru]; simp only [List.length_cons]; omega
    · rw [hkeys, hohash]; simp [CSMap.keys]
    · intro k hk
      simp only [List.map_cons, List.mem_cons, not_or] at hk
      rw [hfind k hk.2, hohash]
      have hne : ¬ hashKey w.packet = k := fun e => hk.1 e.symm
      simp [CSMap.find, hne]
    · intro i hi
      rw [hent i (by rw [hoent]; simp; omega), hoent]
      exact List.getElem?_append_left hi
    · intro w' hw'
      rcases List.mem_cons.mp hw' with rfl | hmem
      · exact ⟨_, hfindw, hentw⟩
      · exact hall w' hmem

/-! ## The representation invariant -/

theorem BindingsOk.filter {κ : Type} {entries : List CCNxStandardContentStoreEntry}
    {lru : List Nat} {key : CCNxPacket → κ} {m : CSMap κ}
    (h : BindingsOk entries lru key m) (f : κ × Nat → Bool) :
    BindingsOk entries lru key (m.filter f) :=
  fun kh hkh => h kh (List.mem_filter.mp hkh).1

theorem BindingsOk.assign {κ : Type} [DecidableEq κ]
    {entries : List CCNxStandardContentStoreEntry}
    {lru : List Nat} {key : CCNxPacket → κ} {m : CSMap κ}
    (h : BindingsOk entries lru key m) (k : κ) (entry : Nat)
    (e : CCNxStandardContentStoreEntry)
    (hl : entry ∈ lru) (he : entries[entry]? = some e) (hk : key e.packet = k) :
    BindingsOk entries lru key (CSMap.assign m k entry) := by
  intro kh hkh
  rcases List.mem_cons.mp hkh with rfl | hmem
  · exact ⟨hl, e, he, hk⟩
  · exact h kh (List.mem_filter.mp hmem).1

theorem BindingsOk.mono {κ : Type} {entries entries' : List CCNxStandardContentStoreEntry}
    {lru lru' : List Nat} {key : CCNxPacket → κ} {m : CSMap κ}
    (h : BindingsOk entries lru key m)
    (hl : ∀ kh ∈ m, kh.2 ∈ lru → kh.2 ∈ lru')
    (he : ∀ (i : Nat) (e : CCNxStandardContentStoreEntry), entries[i]? = some e →
      ∃ e' : CCNxStandardContentStoreEntry, entries'[i]? = some e' ∧ e'.packet = e.packet) :
    BindingsOk entries' lru' key m := by
  intro kh hkh
  obtain ⟨h1, e, h2, h3⟩ := h kh hkh
  obtain ⟨e', h4, h5⟩ := he _ e h2
  exact ⟨hl kh hkh h1, e', h4, by rw [h5]; exact h3⟩

theorem BindingsOk.eraseP {κ : Type} {entries : List CCNxStandardContentStoreEntry}
    {lru : List Nat} {key : CCNxPacket → κ} {m : CSMap κ}
    (h : BindingsOk entries lru key m) (p : CCNxPacket)
    (hne : ∀ kh ∈ m, kh.1 ≠ key p) :
    BindingsOk entries (lru.eraseP (wrapsPacket entries p)) key m := by
  intro kh hkh
  obtain ⟨h1, e, h2, h3⟩ := h kh hkh
  refine ⟨?_, e, h2, h3⟩
  have hnot : ¬ wrapsPacket entries p kh.2 = true := by
    simp only [wrapsPacket, h2, decide_eq_true_eq]
    intro heq
    exact hne kh hkh (by rw [← h3, heq])
  exact (List.mem_eraseP_of_neg hnot).mpr h1

theorem CSMap.key_ne_of_mem_filter {κ : Type} [DecidableEq κ] (m : CSMap κ) (k : κ) :
    ∀ kh ∈ m.filter (fun kv => !decide (kv.1 = k)), kh.1 ≠ k := by
  intro kh hkh
  have := (List.mem_filter.mp hkh).2
  simpa using this

theorem RemoveContentObject_inv (s : CCNxStandardContentStore) (p : CCNxPacket)
    (hinv : StoreInv s) : StoreInv (RemoveContentObject s p).1 := by
  have hHK := hinv.byHashKeyid_empty
  unfold RemoveContentObject
  simp only [CSMap.erase]
  by_cases h1 : (CSMap.find s.m_csByHash (hashKey p)).isSome = true
  · by_cases hn : p.message.name.isSome = true
    · by_cases h3 : (CSMap.find s.m_csByNameKeyid (nameKeyidKey p)).isSome = true
      · simp only [h1, hn, h3, ne_eq, not_true_eq_false, not_false_eq_true, decide_True,
          decide_False, if_true, if_false, Bool.false_eq_true, DeleteLruListPacket,
          one_ne_zero]
        exact
          { lru_nodup := hinv.lru_nodup.sublist (List.eraseP_sublist _)
            lru_valid := fun h hh => hinv.lru_valid h (List.mem_of_mem_eraseP hh)
            byHashKeyid_empty := hHK
            byHash_some := fun kh hkh => hinv.byHash_some kh (List.mem_of_mem_filter hkh)
            byHash_ok := (hinv.byHash_ok.filter _).eraseP p (CSMap.key_ne_of_mem_filter _ _)
            byName_ok := (hinv.byName_ok.filter _).eraseP p (CSMap.key_ne_of_mem_filter _ _)
            byNameKeyid_ok :=
              (hinv.byNameKeyid_ok.filter _).eraseP p (CSMap.key_ne_of_mem_filter _ _) }
      · simp only [h1, hn, h3, ne_eq, not_true_eq_false, not_false_eq_true, decide_True,
          decide_False, if_true, if_false, Bool.false_eq_true, one_ne_zero]
        exact
          { lru_nodup := hinv.lru_nodup
            lru_valid := hinv.lru_valid
            byHashKeyid_empty := hHK
            byHash_some := fun kh hkh => hinv.byHash_some kh (List.mem_of_mem_filter hkh)
            byHash_ok := hinv.byHash_ok.filter _
            byName_ok := hinv.byName_ok.filter _
            byNameKeyid_ok := hinv.byNameKeyid_ok.filter _ }
    · simp only [h1, hn, hHK, CSMap.find, ne_eq, not_true_eq_false,
        not_false_eq_true, decide_True, decide_False, if_true, if_false, Bool.false_eq_true,
        List.filter_nil, Option.isSome_none, one_ne_zero]
      exact
        { lru_nodup := hinv.lru_nodup
          lru_valid := hinv.lru_valid
          byHashKeyid_empty := rfl
          byHash_some := fun kh hkh => hinv.byHash_some kh (List.mem_of_mem_filter hkh)
          byHash_ok := hinv.byHash_ok.filter _
          byName_ok := hinv.byName_ok
          byNameKeyid_ok := hinv.byNameKeyid_ok }
  · simp only [h1, ne_eq, not_true_eq_false, decide_False, if_false, Bool.false_eq_true]
    exact
      { lru_nodup := hinv.lru_nodup
        lru_valid := hinv.lru_valid
        byHashKeyid_empty := hHK
        byHash_some := fun kh hkh => hinv.byHash_some kh (List.mem_of_mem_filter hkh)
        byHash_ok := hinv.byHash_ok.filter _
        byName_ok := hinv.byName_ok
        byNameKeyid_ok := hinv.byNameKeyid_ok }

theorem RemoveContentObject_frame (s : CCNxStandardContentStore) (p : CCNxPacket) :
    (RemoveContentObject s p).1.m_entries = s.m_entries
      ∧ (RemoveContentObject s p).1.m_objectCapacity = s.m_objectCapacity
      ∧ (RemoveContentObject s p).1.m_matchInterestCallback = s.m_matchInterestCallback
      ∧ (RemoveContentObject s p).1.m_addContentObjectCallback = s.m_addContentObjectCallback
      ∧ (RemoveContentObject s p).1.m_lruList.Sublist s.m_lruList := by
  unfold RemoveContentObject
  simp only [DeleteLruListPacket]
  split_ifs <;> simp [List.eraseP_sublist]

theorem ServiceMatchInterest_cases (st : EntryStatus) (s s' : CCNxStandardContentStore)
    (workItem : CCNxStandardForwarderWorkItem) (cbs : List CCNxStandardForwarderWorkItem)
    (h : ServiceMatchInterest st s workItem = .ok (s', cbs)) :
    (ServiceMatchInterest_find s workItem = none ∧ s' = s ∧ cbs = [workItem])
      ∨ (∃ entry e, ServiceMatchInterest_find s workItem = some entry
          ∧ s.m_entries[entry]? = some e ∧ IsEntryValid st e = true
          ∧ s' = { s with m_entries := s.m_entries.set entry e.IncrementUseCount
                          m_lruList := LruList_RefreshEntry s.m_lruList entry }
          ∧ cbs = [workItem.SetContentStorePacket e.packet])
      ∨ (∃ entry e, ServiceMatchInterest_find s workItem = some entry
          ∧ s.m_entries[entry]? = some e ∧ IsEntryValid st e = false
          ∧ s' = (RemoveContentObject s e.packet).1 ∧ cbs = [workItem]) := by
  unfold ServiceMatchInterest at h
  split_ifs at h with hp hm
  cases hf : ServiceMatchInterest_find s workItem with
  | none =>
    left
    simp only [hf] at h
    cases hcb : s.m_matchInterestCallback <;> simp [hcb, Callback.invoke] at h
    exact ⟨rfl, h.1.symm, h.2.symm⟩
  | some entry =>
    right
    simp only [hf] at h
    cases he : s.m_entries[entry]? with
    | none => simp [he] at h
    | some e =>
      simp only [he] at h
      by_cases hv : IsEntryValid st e = true
      · left
        simp only [hv, if_true] at h
        cases hcb : s.m_matchInterestCallback <;> simp [hcb, Callback.invoke] at h
        exact ⟨entry, e, rfl, he, hv, h.1.symm, h.2.symm⟩
      · right
        simp only [hv, if_false, Bool.false_eq_true] at h
        rw [(RemoveContentObject_frame s e.packet).2.2.1] at h
        cases hcb : s.m_matchInterestCallback <;> simp [hcb, Callback.invoke] at h
        exact ⟨entry, e, rfl, he, by simpa using hv, h.1.symm, h.2.symm⟩

theorem StoreInv.find_mem {s : CCNxStandardContentStore} (hinv : StoreInv s)
    (workItem : CCNxStandardForwarderWorkItem) (entry : Nat)
    (hf : ServiceMatchInterest_find s workItem = some entry) :
    entry ∈ s.m_lruList ∧ ∃ e, s.m_entries[entry]? = some e
      ∧ (strategyOf workItem.packet).sameKey e.packet workItem.packet := by
  rw [ServiceMatchInterest_find_eq_consult] at hf
  cases hsel : strategyOf workItem.packet <;>
    simp only [hsel, LookupStrategy.consult, LookupStrategy.sameKey] at hf ⊢
  · exact hinv.byNameKeyid_ok _ (CSMap.mem_of_find _ _ _ hf)
  · exact hinv.byName_ok _ (CSMap.mem_of_find _ _ _ hf)
  · rw [hinv.byHashKeyid_empty] at hf
    simp [CSMap.find] at hf
  · exact hinv.byHash_ok _ (CSMap.mem_of_find _ _ _ hf)

/-- With the invariant, a lookup of an interest that finds an entry dereferences no
null restriction: no key of the hash map is null, the name and keyid map is consulted
for an interest with a keyid restriction only, and the hash and keyid map is empty. -/
theorem StoreInv.find_not_fatal {s : CCNxStandardContentStore} (hinv : StoreInv s)
    (workItem : CCNxStandardForwarderWorkItem) (entry : Nat)
    (hm : workItem.packet.message.messageType = .Interest)
    (hf : ServiceMatchInterest_find s workItem = some entry) :
    ServiceMatchInterest_findFatal s workItem = false := by
  unfold ServiceMatchInterest_find at hf
  unfold ServiceMatchInterest_findFatal
  cases hn : hasNameWithSegments workItem.packet.message <;>
    cases hk : workItem.packet.message.HasKeyidRestriction <;>
    simp only [hn, hk, if_true, if_false, Bool.false_eq_true] at hf ⊢
  · cases hr : workItem.packet.message.hashRestriction with
    | none =>
      have hkey : hashKey workItem.packet = none := by
        simp [hashKey, GetHashOrRestriction, keyValue, hm, hr]
      rw [hkey] at hf
      exact absurd rfl (hinv.byHash_some _ (CSMap.mem_of_find _ _ _ hf))
    | some r => simp [GetHashOrRestriction, isFatal, hm, hr]
  · simp [hinv.byHashKeyid_empty]
  · simp only [CCNxMessage.HasKeyidRestriction] at hk
    obtain ⟨k, hk'⟩ := Option.isSome_iff_exists.mp hk
    simp [GetKeyidOrRestriction, isFatal, hm, hk']

theorem getElem?_set_packet (entries : List CCNxStandardContentStoreEntry) (entry : Nat)
    (e : CCNxStandardContentStoreEntry) (he : entries[entry]? = some e)
    (i : Nat) (e0 : CCNxStandardContentStoreEntry) (hi : entries[i]? = some e0) :
    ∃ e' : CCNxStandardContentStoreEntry,
      (entries.set entry e.IncrementUseCount)[i]? = some e' ∧ e'.packet = e0.packet := by
  by_cases hie : entry = i
  · subst hie
    rw [he] at hi
    cases hi
    have hlt : entry < entries.length := by
      by_contra hge
      rw [List.getElem?_eq_none (by omega)] at he
      cases he
    refine ⟨e.IncrementUseCount, ?_, rfl⟩
    simp [List.getElem?_set, hlt]
  · refine ⟨e0, ?_, rfl⟩
    simp [List.getElem?_set, hie, hi]

theorem StoreInv.refresh {s : CCNxStandardContentStore} (hinv : StoreInv s)
    (entry : Nat) (e : CCNxStandardContentStoreEntry)
    (hl : entry ∈ s.m_lruList) (he : s.m_entries[entry]? = some e) :
    StoreInv { s with m_entries := s.m_entries.set entry e.IncrementUseCount
                      m_lruList := LruList_RefreshEntry s.m_lruList entry } := by
  have hmem : ∀ h, h ∈ s.m_lruList → h ∈ LruList_RefreshEntry s.m_lruList entry := by
    intro h hh
    by_cases hhe : h = entry
    · simp [LruList_RefreshEntry, hhe]
    · exact List.mem_cons_of_mem _ ((List.mem_erase_of_ne hhe).mpr hh)
  exact
    { lru_nodup := by
        simp only [LruList_RefreshEntry]
        exact List.nodup_cons.mpr ⟨hinv.lru_nodup.not_mem_erase, hinv.lru_nodup.erase _⟩
      lru_valid := by
        intro h hh
        simp only [LruList_RefreshEntry, List.mem_cons] at hh
        simp only [List.length_set]
        rcases hh with rfl | hh
        · exact hinv.lru_valid _ hl
        · exact hinv.lru_valid _ (List.mem_of_mem_erase hh)
      byHashKeyid_empty := hinv.byHashKeyid_empty
      byHash_some := hinv.byHash_some
      byHash_ok := hinv.byHash_ok.mono (fun kh _ => hmem kh.2)
        (getElem?_set_packet s.m_entries entry e he)
      byName_ok := hinv.byName_ok.mono (fun kh _ => hmem kh.2)
        (getElem?_set_packet s.m_entries entry e he)
      byNameKeyid_ok := hinv.byNameKeyid_ok.mono (fun kh _ => hmem kh.2)
        (getElem?_set_packet s.m_entries entry e he) }

theorem ServiceMatchInterest_inv (st : EntryStatus) (s s' : CCNxStandardContentStore)
    (workItem : CCNxStandardForwarderWorkItem) (cbs : List CCNxStandardForwarderWorkItem)
    (hinv : StoreInv s) (h : ServiceMatchInterest st s workItem = .ok (s', cbs)) :
    StoreInv s' := by
  rcases ServiceMatchInterest_cases st s s' workItem cbs h with
    ⟨-, rfl, -⟩ | ⟨entry, e, hf, he, -, rfl, -⟩ | ⟨entry, e, -, -, -, rfl, -⟩
  · exact hinv
  · exact hinv.refresh entry e (hinv.find_mem workItem entry hf).1 he
  · exact RemoveContentObject_inv s e.packet hinv

theorem AddMapEntry_inv (s : CCNxStandardContentStore) (p : CCNxPacket) (newEntry : Nat)
    (r : CCNxStandardContentStore × Bool)
    (hinv : StoreInv s) (hl : newEntry ∈ s.m_lruList)
    (he : s.m_entries[newEntry]? = some (CCNxStandardContentStoreEntry.Create p))
    (h : AddMapEntry s p newEntry = .ok r) : StoreInv r.1 := by
  unfold AddMapEntry at h
  have hsome : ∀ kh ∈ CSMap.assign s.m_csByHash (hashKey p) newEntry, kh.1 ≠ none := by
    intro kh hkh
    rcases List.mem_cons.mp hkh with rfl | hkh
    · intro hnone
      have hobj : p.message.messageType = .ContentObject := by
        by_contra hne
        simp [hne] at h
      simp [hashKey, GetHashOrRestriction, keyValue, hobj] at hnone
    · exact hinv.byHash_some kh (List.mem_of_mem_filter hkh)
  split_ifs at h with hobj hname
  · cases h
    exact
      { lru_nodup := hinv.lru_nodup
        lru_valid := hinv.lru_valid
        byHashKeyid_empty := hinv.byHashKeyid_empty
        byHash_some := hsome
        byHash_ok := hinv.byHash_ok.assign _ newEntry _ hl he rfl
        byName_ok := hinv.byName_ok.assign _ newEntry _ hl he rfl
        byNameKeyid_ok := hinv.byNameKeyid_ok.assign _ newEntry _ hl he rfl }
  · cases h
    exact
      { lru_nodup := hinv.lru_nodup
        lru_valid := hinv.lru_valid
        byHashKeyid_empty := hinv.byHashKeyid_empty
        byHash_some := hsome
        byHash_ok := hinv.byHash_ok.assign _ newEntry _ hl he rfl
        byName_ok := hinv.byName_ok
        byNameKeyid_ok := hinv.byNameKeyid_ok.assign _ newEntry _ hl he rfl }

theorem ServiceAddContentObject_add_true (s1 : CCNxStandardContentStore)
    (cPacket : CCNxPacket) (newEntry : Nat) :
    ServiceAddContentObject_add s1 true cPacket newEntry
      = AddMapEntry { s1 with m_lruList := newEntry :: s1.m_lruList } cPacket newEntry := by
  simp [ServiceAddContentObject_add, LruList_AddEntry]

theorem ServiceAddContentObject_add_false (s1 : CCNxStandardContentStore)
    (cPacket : CCNxPacket) (newEntry : Nat) :
    ServiceAddContentObject_add s1 false cPacket newEntry = .ok (s1, false) := by
  simp [ServiceAddContentObject_add]

theorem AddMapEntry_frame (s : CCNxStandardContentStore) (p : CCNxPacket) (newEntry : Nat)
    (r : CCNxStandardContentStore × Bool) (h : AddMapEntry s p newEntry = .ok r) :
    r.2 = true ∧ r.1.m_entries = s.m_entries ∧ r.1.m_lruList = s.m_lruList
      ∧ r.1.m_objectCapacity = s.m_objectCapacity
      ∧ r.1.m_matchInterestCallback = s.m_matchInterestCallback
      ∧ r.1.m_addContentObjectCallback = s.m_addContentObjectCallback
      ∧ r.1.m_csByHashKeyid = s.m_csByHashKeyid := by
  unfold AddMapEntry at h
  split_ifs at h <;> cases h <;> simp

/-- What a serviced insertion that returns went through: either the object was already
stored, or room was made (`s1`, `r1`) and the entry was added (or not, when `r1` is
false). -/
theorem ServiceAddContentObject_cases (s : CCNxStandardContentStore)
    (workItem : CCNxStandardForwarderWorkItem) (o : AddContentObjectOutcome)
    (h : ServiceAddContentObject s workItem = .ok o) :
    (FindEntryInHashMap s workItem.packet ≠ none ∧ o.store = s ∧ o.result = false)
      ∨ (FindEntryInHashMap s workItem.packet = none
          ∧ ∃ s1 r1,
            ServiceAddContentObject_evict
                { s with m_entries := s.m_entries
                    ++ [CCNxStandardContentStoreEntry.Create workItem.packet] } = .ok (s1, r1)
            ∧ ServiceAddContentObject_add s1 r1 workItem.packet s.m_entries.length
                = .ok (o.store, o.result)) := by
  unfold ServiceAddContentObject at h
  simp only [] at h
  cases hf : FindEntryInHashMap s workItem.packet with
  | some entry =>
    left
    simp only [hf] at h
    cases hcb : s.m_addContentObjectCallback <;> simp [hcb, Callback.invoke] at h
    subst h
    exact ⟨by simp, rfl, rfl⟩
  | none =>
    right
    refine ⟨rfl, ?_⟩
    simp only [hf] at h
    cases hev : ServiceAddContentObject_evict
        { s with m_entries := s.m_entries
            ++ [CCNxStandardContentStoreEntry.Create workItem.packet] } with
    | error f => simp [hev] at h
    | ok r =>
      obtain ⟨s1, r1⟩ := r
      simp only [hev] at h
      cases hadd : ServiceAddContentObject_add s1 r1 workItem.packet s.m_entries.length with
      | error f => simp [hadd] at h
      | ok r3 =>
        obtain ⟨s3, r3⟩ := r3
        simp only [hadd] at h
        cases hcb : s3.m_addContentObjectCallback <;> simp [hcb, Callback.invoke] at h
        subst h
        exact ⟨s1, r1, rfl, hadd⟩

theorem StoreInv.append_entry {s : CCNxStandardContentStore} (hinv : StoreInv s)
    (e : CCNxStandardContentStoreEntry) :
    StoreInv { s with m_entries := s.m_entries ++ [e] } := by
  have hent : ∀ (i : Nat) (e0 : CCNxStandardContentStoreEntry), s.m_entries[i]? = some e0 →
      ∃ e' : CCNxStandardContentStoreEntry,
        (s.m_entries ++ [e])[i]? = some e' ∧ e'.packet = e0.packet := by
    intro i e0 hi
    have hlt : i < s.m_entries.length := by
      by_contra hge
      rw [List.getElem?_eq_none (by omega)] at hi
      cases hi
    exact ⟨e0, by rw [List.getElem?_append_left hlt]; exact hi, rfl⟩
  exact
    { lru_nodup := hinv.lru_nodup
      lru_valid := fun h hh => by
        have := hinv.lru_valid h hh
        simp only [List.length_append, List.length_singleton]
        omega
      byHashKeyid_empty := hinv.byHashKeyid_empty
      byHash_some := hinv.byHash_some
      byHash_ok := hinv.byHash_ok.mono (fun _ _ h => h) hent
      byName_ok := hinv.byName_ok.mono (fun _ _ h => h) hent
      byNameKeyid_ok := hinv.byNameKeyid_ok.mono (fun _ _ h => h) hent }

theorem StoreInv.add_entry {s : CCNxStandardContentStore} (hinv : StoreInv s)
    (newEntry : Nat) (hfresh : newEntry ∉ s.m_lruList) (hlt : newEntry < s.m_entries.length) :
    StoreInv { s with m_lruList := newEntry :: s.m_lruList } :=
  { lru_nodup := List.nodup_cons.mpr ⟨hfresh, hinv.lru_nodup⟩
    lru_valid := fun h hh => by
      rcases List.mem_cons.mp hh with rfl | hh
      · exact hlt
      · exact hinv.lru_valid h hh
    byHashKeyid_empty := hinv.byHashKeyid_empty
    byHash_some := hinv.byHash_some
    byHash_ok := hinv.byHash_ok.mono (fun _ _ h => List.mem_cons_of_mem _ h)
      (fun _ e h => ⟨e, h, rfl⟩)
    byName_ok := hinv.byName_ok.mono (fun _ _ h => List.mem_cons_of_mem _ h)
      (fun _ e h => ⟨e, h, rfl⟩)
    byNameKeyid_ok := hinv.byNameKeyid_ok.mono (fun _ _ h => List.mem_cons_of_mem _ h)
      (fun _ e h => ⟨e, h, rfl⟩) }

/-- Making room keeps the invariant, the entries, and only shortens the LRU list. -/
theorem ServiceAddContentObject_evict_inv (s0 s1 : CCNxStandardContentStore) (r1 : Bool)
    (hinv : StoreInv s0) (h : ServiceAddContentObject_evict s0 = .ok (s1, r1)) :
    StoreInv s1 ∧ s1.m_entries = s0.m_entries ∧ s1.m_lruList.Sublist s0.m_lruList
      ∧ s1.m_objectCapacity = s0.m_objectCapacity
      ∧ s1.m_matchInterestCallback = s0.m_matchInterestCallback
      ∧ s1.m_addContentObjectCallback = s0.m_addContentObjectCallback := by
  unfold ServiceAddContentObject_evict at h
  split_ifs at h with hroom
  · cases h
    exact ⟨hinv, rfl, List.Sublist.refl _, rfl, rfl, rfl⟩
  · cases ht : LruList_GetTailPacket s0.m_entries s0.m_lruList with
    | none => simp [ht] at h
    | some tailPacket =>
      simp only [ht] at h
      have hr : RemoveContentObject s0 tailPacket = (s1, r1) := by
        simpa using h
      have hfr := RemoveContentObject_frame s0 tailPacket
      have hi := RemoveContentObject_inv s0 tailPacket hinv
      rw [hr] at hfr hi
      exact ⟨hi, hfr.1, hfr.2.2.2.2, hfr.2.1, hfr.2.2.1, hfr.2.2.2.1⟩

theorem ServiceAddContentObject_inv (s : CCNxStandardContentStore)
    (workItem : CCNxStandardForwarderWorkItem) (o : AddContentObjectOutcome)
    (hinv : StoreInv s) (h : ServiceAddContentObject s workItem = .ok o) :
    StoreInv o.store := by
  rcases ServiceAddContentObject_cases s workItem o h with
    ⟨-, hs, -⟩ | ⟨-, s1, r1, hev, hadd⟩
  · rw [hs]; exact hinv
  · obtain ⟨hi1, hent1, hsub, -⟩ :=
      ServiceAddContentObject_evict_inv _ s1 r1
        (hinv.append_entry (CCNxStandardContentStoreEntry.Create workItem.packet)) hev
    cases r1 with
    | false =>
      rw [ServiceAddContentObject_add_false] at hadd
      simp only [Except.ok.injEq, Prod.mk.injEq] at hadd
      rw [← hadd.1]
      exact hi1
    | true =>
      rw [ServiceAddContentObject_add_true] at hadd
      have hfresh : s.m_entries.length ∉ s1.m_lruList := by
        intro hmem
        have := hinv.lru_valid _ (hsub.subset hmem)
        omega
      have hlt : s.m_entries.length < s1.m_entries.length := by
        rw [hent1]; simp
      have hi2 := hi1.add_entry s.m_entries.length hfresh hlt
      exact AddMapEntry_inv _ workItem.packet s.m_entries.length _ hi2
        (List.mem_cons_self _ _) (by simp [hent1]) hadd

/-- Every reachable state satisfies the representation invariant. -/
theorem Reachable.inv {s : CCNxStandardContentStore} (h : Reachable s) : StoreInv s := by
  induction h with
  | init capacity matchCb addCb =>
    exact
      { lru_nodup := List.nodup_nil
        lru_valid := fun _ hh => by cases hh
        byHashKeyid_empty := rfl
        byHash_some := fun _ hh => by cases hh
        byHash_ok := fun _ hh => by cases hh
        byName_ok := fun _ hh => by cases hh
        byNameKeyid_ok := fun _ hh => by cases hh }
  | matchInterest st s s' workItem cbs _ hstep ih =>
    exact ServiceMatchInterest_inv st s s' workItem cbs ih hstep
  | addContentObject s workItem o _ hstep ih =>
    exact ServiceAddContentObject_inv s workItem o ih hstep

/-- A lookup that finds a valid entry, with a registered callback: the use count of
the entry is incremented, the entry is refreshed in the LRU list, and the callback gets
the work item with the packet of the entry. -/
theorem ServiceMatchInterest_valid (st : EntryStatus) (s : CCNxStandardContentStore)
    (workItem : CCNxStandardForwarderWorkItem) (entry : Nat)
    (e : CCNxStandardContentStoreEntry)
    (hcb : s.m_matchInterestCallback = .User)
    (hp : workItem.packet.packetType = .Interest)
    (hm : workItem.packet.message.messageType = .Interest)
    (hnf : ServiceMatchInterest_findFatal s workItem = false)
    (hf : ServiceMatchInterest_find s workItem = some entry)
    (he : s.m_entries[entry]? = some e)
    (hv : IsEntryValid st e = true) :
    ServiceMatchInterest st s workItem
      = .ok ({ s with m_entries := s.m_entries.set entry e.IncrementUseCount
                      m_lruList := LruList_RefreshEntry s.m_lruList entry },
             [workItem.SetContentStorePacket e.packet]) := by
  simp [ServiceMatchInterest, hp, hm, hnf, hf, he, hv, hcb, Callback.invoke]

theorem Reachable.addContentObjects {s s' : CCNxStandardContentStore}
    (ws : List CCNxStandardForwarderWorkItem) (h : Reachable s)
    (hs : ServiceAddContentObjects s ws = .ok s') : Reachable s' := by
  induction ws generalizing s with
  | nil =>
    simp only [ServiceAddContentObjects, Except.ok.injEq] at hs
    rw [← hs]; exact h
  | cons w rest ih =>
    simp only [ServiceAddContentObjects] at hs
    cases ho : ServiceAddContentObject s w with
    | error f => simp [ho] at hs
    | ok o =>
      simp only [ho] at hs
      exact ih (Reachable.addContentObject s w o h ho) hs

theorem Reachable.storeAfter {s : CCNxStandardContentStore} (ps : List CCNxPacket)
    (h : Reachable s) : Reachable (storeAfter s ps) := by
  unfold CCNx.storeAfter
  cases hs : ServiceAddContentObjects s (ps.map workItemOf) with
  | error f => exact h
  | ok s' => exact h.addContentObjects _ hs

theorem LruList_RefreshEntry_tail (l : List Nat) (entry : Nat)
    (hnodup : l.Nodup) (hmem : entry ∈ l) (htwo : 2 ≤ l.length) :
    ∃ t, (LruList_RefreshEntry l entry).getLast? = some t ∧ t ∈ l ∧ t ≠ entry := by
  have hlen : (l.erase entry).length = l.length - 1 := List.length_erase_of_mem hmem
  cases hlast : (l.erase entry).getLast? with
  | none =>
    rw [List.getLast?_eq_none_iff] at hlast
    rw [hlast] at hlen
    simp at hlen
    omega
  | some t =>
    have ht := (hnodup.mem_erase_iff).mp (List.mem_of_getLast?_eq_some hlast)
    exact ⟨t, by simp [LruList_RefreshEntry, List.getLast?_cons, hlast], ht.2, ht.1⟩

theorem RemoveContentObject_consult (sel : LookupStrategy) (s : CCNxStandardContentStore)
    (p q : CCNxPacket) (hne : ¬ sel.sameKey p q) :
    sel.consult (RemoveContentObject s p).1 q = sel.consult s q := by
  unfold RemoveContentObject
  simp only [CSMap.erase, DeleteLruListPacket]
  cases sel <;> simp only [LookupStrategy.sameKey] at hne <;>
    split_ifs <;> simp only [LookupStrategy.consult] <;>
    first
      | rfl
      | exact CSMap.find_filter_ne _ _ _ (fun h => hne h.symm)

theorem RemoveContentObject_lru_mem (s : CCNxStandardContentStore) (p : CCNxPacket)
    (h : Nat) (hmem : h ∈ s.m_lruList) (hw : ¬ wrapsPacket s.m_entries p h = true) :
    h ∈ (RemoveContentObject s p).1.m_lruList := by
  unfold RemoveContentObject
  simp only [CSMap.erase, DeleteLruListPacket]
  split_ifs <;> first
    | exact hmem
    | exact (List.mem_eraseP_of_neg hw).mpr hmem

theorem AddMapEntry_consult (sel : LookupStrategy) (s : CCNxStandardContentStore)
    (p q : CCNxPacket) (newEntry : Nat) (r : CCNxStandardContentStore × Bool)
    (h : AddMapEntry s p newEntry = .ok r) (hne : ¬ sel.sameKey p q) :
    sel.consult r.1 q = sel.consult s q := by
  unfold AddMapEntry at h
  split_ifs at h <;> cases h <;> cases sel <;>
    simp only [LookupStrategy.sameKey] at hne <;>
    simp only [LookupStrategy.consult] <;>
    first
      | rfl
      | exact CSMap.find_assign_ne _ _ _ _ (fun h => hne h.symm)

theorem AddMapEntry_ok (s : CCNxStandardContentStore) (p : CCNxPacket) (newEntry : Nat)
    (hobj : p.message.messageType = .ContentObject) :
    ∃ r, AddMapEntry s p newEntry = .ok r := by
  unfold AddMapEntry
  simp [hobj]

/-- A serviced insertion of a content object returns when the callback is registered
and the store has room or a tail packet to remove. -/
theorem ServiceAddContentObject_returns (s : CCNxStandardContentStore)
    (workItem : CCNxStandardForwarderWorkItem)
    (hcb : s.m_addContentObjectCallback = .User)
    (hobj : workItem.packet.message.messageType = .ContentObject)
    (hroom : s.m_lruList.length < s.m_objectCapacity
      ∨ ∃ t, LruList_GetTailPacket
          (s.m_entries ++ [CCNxStandardContentStoreEntry.Create workItem.packet])
          s.m_lruList = some t) :
    ∃ o, ServiceAddContentObject s workItem = .ok o := by
  unfold ServiceAddContentObject
  simp only []
  cases hf : FindEntryInHashMap s workItem.packet with
  | some entry => simp [hcb, Callback.invoke]
  | none =>
    simp only []
    have hev : ∃ r : CCNxStandardContentStore × Bool, ServiceAddContentObject_evict
        { s with m_entries := s.m_entries
            ++ [CCNxStandardContentStoreEntry.Create workItem.packet] } = .ok r
        ∧ r.1.m_addContentObjectCallback = .User := by
      by_cases hlt : s.m_lruList.length < s.m_objectCapacity
      · refine ⟨({ s with m_entries := s.m_entries
            ++ [CCNxStandardContentStoreEntry.Create workItem.packet] }, true), ?_, hcb⟩
        simp [ServiceAddContentObject_evict, GetObjectCount, GetObjectCapacity,
          LruList_GetSize, hlt]
      · rcases hroom with hroom | ⟨t, ht⟩
        · exact absurd hroom hlt
        · refine ⟨RemoveContentObject { s with m_entries := s.m_entries
              ++ [CCNxStandardContentStoreEntry.Create workItem.packet] } t, ?_, ?_⟩
          · simp [ServiceAddContentObject_evict, GetObjectCount, GetObjectCapacity,
              LruList_GetSize, hlt, ht]
          · rw [(RemoveContentObject_frame _ t).2.2.2.1]; exact hcb
    obtain ⟨⟨s1, r1⟩, hev1, hcb1⟩ := hev
    simp only [] at hcb1
    rw [hev1]
    simp only []
    cases r1 with
    | false =>
      rw [ServiceAddContentObject_add_false]
      simp [hcb1, Callback.invoke]
    | true =>
      rw [ServiceAddContentObject_add_true]
      obtain ⟨r, hr⟩ := AddMapEntry_ok { s1 with m_lruList := s.m_entries.length :: s1.m_lruList }
        workItem.packet s.m_entries.length hobj
      have hcb3 := (AddMapEntry_frame _ _ _ r hr).2.2.2.2.2.1
      rw [hr]
      obtain ⟨s3, r3⟩ := r
      simp only [] at hcb3 ⊢
      rw [hcb3]
      simp [hcb1, Callback.invoke]

/-! ## C1: the lookup dispatch -/

/-- C1 (amended): the index `ServiceMatchInterest` consults is the one the dispatch
of the specification names for (the request carries a name with at least one segment,
the request carries a keyid restriction); the lookup finds what that index holds under
the key of the request, and two stores that agree on that index give the same answer
whatever their other three indices hold. -/
theorem ServiceMatchInterest_find_dispatch (s s' : CCNxStandardContentStore)
    (workItem : CCNxStandardForwarderWorkItem)
    (h : (strategyOf workItem.packet).sameIndex s s') :
    ServiceMatchInterest_find s workItem
        = (lookupStrategy (hasNameWithSegments workItem.packet.message)
            workItem.packet.message.HasKeyidRestriction).consult s workItem.packet
      ∧ ServiceMatchInterest_find s' workItem = ServiceMatchInterest_find s workItem := by
  unfold strategyOf at h
  unfold ServiceMatchInterest_find
  cases hn : hasNameWithSegments workItem.packet.message <;>
    cases hk : workItem.packet.message.HasKeyidRestriction <;>
    simp [hn, hk, lookupStrategy, LookupStrategy.consult, LookupStrategy.sameIndex] at h ⊢ <;>
    rw [h]

/-- C1 witness: a request with a one-segment name and no keyid restriction, answered
by two stores that share the name index and differ in the three others. -/
theorem ServiceMatchInterest_find_dispatch_witness :
    (strategyOf (interest (some ⟨[[1]]⟩) none none)).sameIndex
        (storeAfter (emptyStore 2 .User .User) [contentObject (some ⟨[[1]]⟩) [7]])
        { storeAfter (emptyStore 2 .User .User) [contentObject (some ⟨[[1]]⟩) [7]] with
          m_csByHash := [], m_csByNameKeyid := [], m_csByHashKeyid := [((none, none), 5)] }
      ∧ (ServiceMatchInterest_find
            (storeAfter (emptyStore 2 .User .User) [contentObject (some ⟨[[1]]⟩) [7]])
            (workItemOf (interest (some ⟨[[1]]⟩) none none))
          = (lookupStrategy
              (hasNameWithSegments (workItemOf (interest (some ⟨[[1]]⟩) none none)).packet.message)
              (workItemOf (interest (some ⟨[[1]]⟩) none none)).packet.message.HasKeyidRestriction).consult
              (storeAfter (emptyStore 2 .User .User) [contentObject (some ⟨[[1]]⟩) [7]])
              (workItemOf (interest (some ⟨[[1]]⟩) none none)).packet
        ∧ ServiceMatchInterest_find
            { storeAfter (emptyStore 2 .User .User) [contentObject (some ⟨[[1]]⟩) [7]] with
              m_csByHash := [], m_csByNameKeyid := [], m_csByHashKeyid := [((none, none), 5)] }
            (workItemOf (interest (some ⟨[[1]]⟩) none none))
          = ServiceMatchInterest_find
            (storeAfter (emptyStore 2 .User .User) [contentObject (some ⟨[[1]]⟩) [7]])
            (workItemOf (interest (some ⟨[[1]]⟩) none none))) :=
  ⟨by decide, ServiceMatchInterest_find_dispatch _ _ _ (by decide)⟩

/-- C1 as stated fails: a request that carries a name (with zero segments) and no
keyid restriction is not answered from byName.  The request carries the hash
restriction 8.  The store holds an object with that very name and the hash 7: byName
holds the key of the request, byHash does not, and the serviced lookup is a miss: the
store is unchanged and the work item handed to the callback carries no object. -/
theorem ServiceMatchInterest_zero_segment_name_not_byName :
    (interest (some ⟨[]⟩) none (some [8])).message.name.isSome = true
      ∧ (interest (some ⟨[]⟩) none (some [8])).message.HasKeyidRestriction = false
      ∧ GetHashOrRestriction (interest (some ⟨[]⟩) none (some [8])) = .ok (some [8])
      ∧ (lookupStrategy true false).consult
          (storeAfter (emptyStore 2 .User .User) [contentObject (some ⟨[]⟩) [7]])
          (interest (some ⟨[]⟩) none (some [8])) = some 0
      ∧ (storeAfter (emptyStore 2 .User .User) [contentObject (some ⟨[]⟩) [7]]).m_csByHash
          = [(some [7], 0)]
      ∧ ServiceMatchInterest allValid
          (storeAfter (emptyStore 2 .User .User) [contentObject (some ⟨[]⟩) [7]])
          (workItemOf (interest (some ⟨[]⟩) none (some [8])))
        = .ok (storeAfter (emptyStore 2 .User .User) [contentObject (some ⟨[]⟩) [7]],
            [workItemOf (interest (some ⟨[]⟩) none (some [8]))])
      ∧ (workItemOf (interest (some ⟨[]⟩) none (some [8]))).contentStorePacket = none := by
  refine ⟨rfl, rfl, rfl, rfl, rfl, rfl, rfl⟩

/-! ## C2: what `AddMapEntry` populates -/

/-- C2 (code evaluated at the failing input): `AddMapEntry` of a nameless content
object into the empty store leaves byHashKeyid empty and binds the object in
byNameKeyid, a name-keyed index, besides byHash. -/
theorem AddMapEntry_nameless_goes_to_byNameKeyid :
    (contentObject none [7]).message.name = none
      ∧ (AddMapEntry (emptyStore 2 .User .User) (contentObject none [7]) 0).map
          (fun r => (r.1.m_csByHash, r.1.m_csByName, r.1.m_csByNameKeyid, r.1.m_csByHashKeyid))
        = .ok ([(some [7], 0)], [], [((none, some [55]), 0)], []) := by
  refine ⟨rfl, rfl⟩

/-! ## C4: inserting an object that is already stored -/

/-- C4: when the hash of the object is already a key of byHash, servicing its
insertion leaves the whole store as it was (the count, the four indices, the order of
the eviction list, every use count), the result is false, and the callback receives the
work item. -/
theorem ServiceAddContentObject_already_stored (s : CCNxStandardContentStore)
    (workItem : CCNxStandardForwarderWorkItem)
    (hcb : s.m_addContentObjectCallback = .User)
    (h : hashKey workItem.packet ∈ CSMap.keys s.m_csByHash) :
    ServiceAddContentObject s workItem
        = .ok { store := s, result := false, callbacks := [workItem] }
      ∧ ∀ o, ServiceAddContentObject s workItem = .ok o →
          GetObjectCount o.store = GetObjectCount s ∧ o.store.m_lruList = s.m_lruList
            ∧ o.store.m_entries = s.m_entries ∧ o.result = false := by
  have hfind : (CSMap.find s.m_csByHash (hashKey workItem.packet)).isSome = true :=
    (CSMap.find_isSome_iff _ _).mpr h
  obtain ⟨v, hv⟩ := Option.isSome_iff_exists.mp hfind
  have heq : ServiceAddContentObject s workItem
      = .ok { store := s, result := false, callbacks := [workItem] } := by
    simp [ServiceAddContentObject, FindEntryInHashMap, hv, hcb, Callback.invoke]
  refine ⟨heq, ?_⟩
  intro o ho
  rw [heq] at ho
  cases ho
  exact ⟨rfl, rfl, rfl, rfl⟩

/-- C4 witness: the stored object is inserted a second time. -/
theorem ServiceAddContentObject_already_stored_witness :
    storeWithOneNamed.m_addContentObjectCallback = .User
      ∧ hashKey (workItemOf (contentObject (some ⟨[[1]]⟩) [7])).packet
          ∈ CSMap.keys storeWithOneNamed.m_csByHash
      ∧ (ServiceAddContentObject storeWithOneNamed (workItemOf (contentObject (some ⟨[[1]]⟩) [7]))
          = .ok { store := storeWithOneNamed, result := false,
                  callbacks := [workItemOf (contentObject (some ⟨[[1]]⟩) [7])] }
        ∧ ∀ o, ServiceAddContentObject storeWithOneNamed
              (workItemOf (contentObject (some ⟨[[1]]⟩) [7])) = .ok o →
            GetObjectCount o.store = GetObjectCount storeWithOneNamed
              ∧ o.store.m_lruList = storeWithOneNamed.m_lruList
              ∧ o.store.m_entries = storeWithOneNamed.m_entries ∧ o.result = false) :=
  ⟨by decide, by decide,
    ServiceAddContentObject_already_stored storeWithOneNamed
      (workItemOf (contentObject (some ⟨[[1]]⟩) [7])) (by decide) (by decide)⟩

/-! ## C8: a lookup that misses -/

/-- A lookup whose find is not fatal and finds nothing: the store is as it was and the
callback gets the work item as queued, which carries no object. -/
theorem ServiceMatchInterest_miss (st : EntryStatus) (s : CCNxStandardContentStore)
    (workItem : CCNxStandardForwarderWorkItem)
    (hcb : s.m_matchInterestCallback = .User)
    (hp : workItem.packet.packetType = .Interest)
    (hm : workItem.packet.message.messageType = .Interest)
    (hnf : ServiceMatchInterest_findFatal s workItem = false)
    (hfresh : workItem.contentStorePacket = none)
    (h : (strategyOf workItem.packet).consult s workItem.packet = none) :
    ∃ out, ServiceMatchInterest st s workItem = .ok (s, [out])
      ∧ out = workItem ∧ out.contentStorePacket = none := by
  have hfind : ServiceMatchInterest_find s workItem = none := by
    rw [ServiceMatchInterest_find_eq_consult]; exact h
  refine ⟨workItem, ?_, rfl, hfresh⟩
  simp [ServiceMatchInterest, hp, hm, hnf, hfind, hcb, Callback.invoke]

/-- C8 (code evaluated at the failing input): the store holds one object, named by the
segment 1, with hash 7, and the lookup callback is registered.  A request whose name has
no segment, without keyid restriction and without hash restriction, is looked up in
byHash, which does not hold a key for it.  The lookup is not a miss: the comparator of
byHash calls `GetHashOrRestriction` on the request, which dereferences the null hash
restriction, and the lookup is fatal before the callback is invoked.  The same request
with a hash restriction that is not stored is a miss. -/
theorem ServiceMatchInterest_miss_fatal :
    storeWithOneNamed.m_matchInterestCallback = .User
      ∧ storeWithOneNamed.m_csByHash = [(some [7], 0)]
      ∧ strategyOf (interest (some ⟨[]⟩) none none) = .byHash
      ∧ (strategyOf (interest (some ⟨[]⟩) none none)).consult storeWithOneNamed
          (interest (some ⟨[]⟩) none none) = none
      ∧ GetHashOrRestriction (interest (some ⟨[]⟩) none none) = .error .nullPointer
      ∧ ServiceMatchInterest allValid storeWithOneNamed
          (workItemOf (interest (some ⟨[]⟩) none none)) = .error .nullPointer
      ∧ ServiceMatchInterest allValid storeWithOneNamed
          (workItemOf (interest (some ⟨[]⟩) none (some [8])))
        = .ok (storeWithOneNamed, [workItemOf (interest (some ⟨[]⟩) none (some [8]))]) := by
  refine ⟨rfl, rfl, rfl, rfl, rfl, rfl, rfl⟩

/-! ## C9: inserting no more objects than the capacity -/

/-- C9: servicing the insertions of N ≤ capacity content objects with pairwise distinct
hashes into an empty store succeeds; afterwards the count is N, byHash has N keys,
which are exactly the hashes of the objects, and each object is bound in byHash to an
entry that wraps it. -/
theorem ServiceAddContentObjects_count (capacity : Nat) (matchCb : Callback)
    (ws : List CCNxStandardForwarderWorkItem)
    (hN : ws.length ≤ capacity)
    (hobj : ∀ w ∈ ws, w.packet.message.messageType = .ContentObject)
    (hdistinct : (ws.map (fun w => w.packet.contentObjectHash)).Nodup) :
    ∃ s', ServiceAddContentObjects (emptyStore capacity matchCb .User) ws = .ok s'
      ∧ GetObjectCount s' = ws.length
      ∧ CSMap.size s'.m_csByHash = ws.length
      ∧ (CSMap.keys s'.m_csByHash).Nodup
      ∧ (∀ k, k ∈ CSMap.keys s'.m_csByHash ↔ ∃ w ∈ ws, some w.packet.contentObjectHash = k)
      ∧ ∀ w ∈ ws, ∃ entry e, FindEntryInHashMap s' w.packet = some entry
          ∧ s'.m_entries[entry]? = some e ∧ e.packet = w.packet := by
  have hkey : ∀ w ∈ ws, hashKey w.packet = some w.packet.contentObjectHash := by
    intro w hw
    simp [hashKey, GetHashOrRestriction, keyValue, hobj w hw]
  have hmap : ws.map (fun w => hashKey w.packet)
      = (ws.map (fun w => w.packet.contentObjectHash)).map some := by
    rw [List.map_map]
    exact List.map_congr_left hkey
  have hnodup : (ws.map (fun w => hashKey w.packet)).Nodup := by
    rw [hmap]
    exact hdistinct.map (Option.some_injective _)
  obtain ⟨s', hs', hlen, hkeys, -, -, hall⟩ :=
    ServiceAddContentObjects_room ws (emptyStore capacity matchCb .User) rfl hobj hnodup
      (fun _ _ => by simp [emptyStore, SetAddContentObjectCallback, SetMatchInterestCallback,
        SetObjectCapacity, CCNxStandardContentStore.new, CSMap.keys])
      (by simpa [emptyStore, SetAddContentObjectCallback, SetMatchInterestCallback,
        SetObjectCapacity, CCNxStandardContentStore.new] using hN)
  have hkeys' : CSMap.keys s'.m_csByHash = (ws.map (fun w => hashKey w.packet)).reverse := by
    rw [hkeys]
    simp [emptyStore, SetAddContentObjectCallback, SetMatchInterestCallback,
      SetObjectCapacity, CCNxStandardContentStore.new, CSMap.keys]
  refine ⟨s', hs', ?_, ?_, ?_, ?_, ?_⟩
  · rw [GetObjectCount, LruList_GetSize, hlen]
    simp [emptyStore, SetAddContentObjectCallback, SetMatchInterestCallback,
      SetObjectCapacity, CCNxStandardContentStore.new]
  · have := congrArg List.length hkeys'
    simpa [CSMap.keys, CSMap.size] using this
  · rw [hkeys']
    exact List.nodup_reverse.mpr hnodup
  · intro k
    rw [hkeys', List.mem_reverse, List.mem_map]
    constructor
    · rintro ⟨w, hw, rfl⟩
      exact ⟨w, hw, (hkey w hw).symm⟩
    · rintro ⟨w, hw, rfl⟩
      exact ⟨w, hw, hkey w hw⟩
  · intro w hw
    obtain ⟨entry, hf, he⟩ := hall w hw
    exact ⟨entry, _, hf, he, rfl⟩

/-- C9 witness: a named and a nameless object inserted into an empty store of
capacity 2. -/
theorem ServiceAddContentObjects_count_witness :
    twoObjects.length ≤ 2
      ∧ (∀ w ∈ twoObjects, w.packet.message.messageType = .ContentObject)
      ∧ (twoObjects.map (fun w => w.packet.contentObjectHash)).Nodup
      ∧ ∃ s', ServiceAddContentObjects (emptyStore 2 .User .User) twoObjects = .ok s'
          ∧ GetObjectCount s' = twoObjects.length
          ∧ CSMap.size s'.m_csByHash = twoObjects.length
          ∧ (CSMap.keys s'.m_csByHash).Nodup
          ∧ (∀ k, k ∈ CSMap.keys s'.m_csByHash
              ↔ ∃ w ∈ twoObjects, some w.packet.contentObjectHash = k)
          ∧ ∀ w ∈ twoObjects, ∃ entry e, FindEntryInHashMap s' w.packet = some entry
              ∧ s'.m_entries[entry]? = some e ∧ e.packet = w.packet :=
  ⟨by decide, by decide, by decide,
    ServiceAddContentObjects_count 2 .User twoObjects (by decide) (by decide) (by decide)⟩

/-! ## C6: a lookup that hits a valid entry -/

/-- C6: in a reachable store, a lookup whose selected index yields a valid entry
increments the use count of that entry by exactly one, hands the callback the work item
carrying the packet stored in the entry, moves the entry to the head of the LRU list,
and leaves the count, the four indices and every other entry unchanged. -/
theorem ServiceMatchInterest_hit (st : EntryStatus) (s : CCNxStandardContentStore)
    (workItem : CCNxStandardForwarderWorkItem) (entry : Nat)
    (e : CCNxStandardContentStoreEntry)
    (hreach : Reachable s)
    (hcb : s.m_matchInterestCallback = .User)
    (hp : workItem.packet.packetType = .Interest)
    (hm : workItem.packet.message.messageType = .Interest)
    (hf : (strategyOf workItem.packet).consult s workItem.packet = some entry)
    (he : s.m_entries[entry]? = some e)
    (hv : IsEntryValid st e = true) :
    ∃ s' out, ServiceMatchInterest st s workItem = .ok (s', [out])
      ∧ out.contentStorePacket = some e.packet ∧ out.packet = workItem.packet
      ∧ s'.m_entries[entry]? = some { packet := e.packet, useCount := e.useCount + 1 }
      ∧ (∀ i, i ≠ entry → s'.m_entries[i]? = s.m_entries[i]?)
      ∧ s'.m_lruList.head? = some entry
      ∧ GetObjectCount s' = GetObjectCount s
      ∧ s'.m_csByHash = s.m_csByHash ∧ s'.m_csByName = s.m_csByName
      ∧ s'.m_csByNameKeyid = s.m_csByNameKeyid ∧ s'.m_csByHashKeyid = s.m_csByHashKeyid := by
  have hfind : ServiceMatchInterest_find s workItem = some entry := by
    rw [ServiceMatchInterest_find_eq_consult]; exact hf
  have hmem : entry ∈ s.m_lruList := (hreach.inv.find_mem workItem entry hfind).1
  have hlt : entry < s.m_entries.length := hreach.inv.lru_valid entry hmem
  refine ⟨_, _, ServiceMatchInterest_valid st s workItem entry e hcb hp hm
      (hreach.inv.find_not_fatal workItem entry hm hfind) hfind he hv,
    rfl, rfl, ?_, ?_, rfl, ?_, rfl, rfl, rfl, rfl⟩
  · simp [List.getElem?_set, hlt, CCNxStandardContentStoreEntry.IncrementUseCount]
  · intro i hi
    have hne : ¬ entry = i := fun h => hi h.symm
    simp [List.getElem?_set, hne]
  · simp only [GetObjectCount, LruList_GetSize, LruList_RefreshEntry, List.length_cons,
      List.length_erase_of_mem hmem]
    have := List.length_pos_of_mem hmem
    omega

/-- C6 witness: the stored object is looked up by its name. -/
theorem ServiceMatchInterest_hit_witness :
    Reachable storeWithOneNamed
      ∧ storeWithOneNamed.m_matchInterestCallback = .User
      ∧ (workItemOf (interest (some ⟨[[1]]⟩) none none)).packet.packetType = .Interest
      ∧ (workItemOf (interest (some ⟨[[1]]⟩) none none)).packet.message.messageType = .Interest
      ∧ (strategyOf (workItemOf (interest (some ⟨[[1]]⟩) none none)).packet).consult
          storeWithOneNamed (workItemOf (interest (some ⟨[[1]]⟩) none none)).packet = some 0
      ∧ storeWithOneNamed.m_entries[0]?
          = some (CCNxStandardContentStoreEntry.Create (contentObject (some ⟨[[1]]⟩) [7]))
      ∧ IsEntryValid allValid
          (CCNxStandardContentStoreEntry.Create (contentObject (some ⟨[[1]]⟩) [7])) = true
      ∧ ∃ s' out, ServiceMatchInterest allValid storeWithOneNamed
            (workItemOf (interest (some ⟨[[1]]⟩) none none)) = .ok (s', [out])
          ∧ out.contentStorePacket
              = some (CCNxStandardContentStoreEntry.Create
                  (contentObject (some ⟨[[1]]⟩) [7])).packet
          ∧ out.packet = (workItemOf (interest (some ⟨[[1]]⟩) none none)).packet
          ∧ s'.m_entries[0]?
              = some { packet := (CCNxStandardContentStoreEntry.Create
                          (contentObject (some ⟨[[1]]⟩) [7])).packet,
                       useCount := (CCNxStandardContentStoreEntry.Create
                          (contentObject (some ⟨[[1]]⟩) [7])).useCount + 1 }
          ∧ (∀ i, i ≠ 0 → s'.m_entries[i]? = storeWithOneNamed.m_entries[i]?)
          ∧ s'.m_lruList.head? = some 0
          ∧ GetObjectCount s' = GetObjectCount storeWithOneNamed
          ∧ s'.m_csByHash = storeWithOneNamed.m_csByHash
          ∧ s'.m_csByName = storeWithOneNamed.m_csByName
          ∧ s'.m_csByNameKeyid = storeWithOneNamed.m_csByNameKeyid
          ∧ s'.m_csByHashKeyid = storeWithOneNamed.m_csByHashKeyid :=
  ⟨(Reachable.init 2 .User .User).storeAfter _, by decide, by decide, by decide, by decide,
    by decide, by decide,
    ServiceMatchInterest_hit allValid storeWithOneNamed
      (workItemOf (interest (some ⟨[[1]]⟩) none none)) 0
      (CCNxStandardContentStoreEntry.Create (contentObject (some ⟨[[1]]⟩) [7]))
      ((Reachable.init 2 .User .User).storeAfter _)
      (by decide) (by decide) (by decide) (by decide) (by decide) (by decide)⟩

/-! ## C7: a hit protects the entry from the next eviction -/

/-- C7 (amended): in a reachable store at capacity that holds at least two entries, a
lookup hits a valid entry E, and E is the only stored entry whose packet has the key of
the request in the consulted index.  Then the next serviced insertion of a content
object that is not stored, and that does not have the key of the request either, is
serviced and does not evict E: the same lookup still finds E in the consulted index, E
is still in the LRU list, and its use count is the incremented one. -/
theorem ServiceAddContentObject_after_hit (st : EntryStatus) (s : CCNxStandardContentStore)
    (workItem newItem : CCNxStandardForwarderWorkItem) (entry : Nat)
    (e : CCNxStandardContentStoreEntry)
    (hreach : Reachable s)
    (hcbM : s.m_matchInterestCallback = .User)
    (hcbA : s.m_addContentObjectCallback = .User)
    (hp : workItem.packet.packetType = .Interest)
    (hm : workItem.packet.message.messageType = .Interest)
    (hfull : GetObjectCapacity s ≤ GetObjectCount s)
    (htwo : 2 ≤ GetObjectCount s)
    (hf : (strategyOf workItem.packet).consult s workItem.packet = some entry)
    (he : s.m_entries[entry]? = some e)
    (hv : IsEntryValid st e = true)
    (honly : ∀ h ∈ s.m_lruList, h ≠ entry → ∀ e', s.m_entries[h]? = some e' →
      ¬ (strategyOf workItem.packet).sameKey e'.packet workItem.packet)
    (hobj : newItem.packet.message.messageType = .ContentObject)
    (hnew : hashKey newItem.packet ∉ CSMap.keys s.m_csByHash)
    (hkey : ¬ (strategyOf workItem.packet).sameKey newItem.packet workItem.packet) :
    ∃ s1 cbs o, ServiceMatchInterest st s workItem = .ok (s1, cbs)
      ∧ ServiceAddContentObject s1 newItem = .ok o
      ∧ (strategyOf workItem.packet).consult o.store workItem.packet = some entry
      ∧ ServiceMatchInterest_find o.store workItem = some entry
      ∧ entry ∈ o.store.m_lruList
      ∧ o.store.m_entries[entry]? = some { packet := e.packet, useCount := e.useCount + 1 } := by
  have hinv := hreach.inv
  have hfind : ServiceMatchInterest_find s workItem = some entry := by
    rw [ServiceMatchInterest_find_eq_consult]; exact hf
  obtain ⟨hmem, e0, he0, hsame⟩ := hinv.find_mem workItem entry hfind
  rw [he] at he0
  cases he0
  have hlt : entry < s.m_entries.length := hinv.lru_valid entry hmem
  have hstep1 := ServiceMatchInterest_valid st s workItem entry e hcbM hp hm
    (hinv.find_not_fatal workItem entry hm hfind) hfind he hv
  simp only [GetObjectCount, GetObjectCapacity, LruList_GetSize] at hfull htwo
  -- the tail of the refreshed list is another entry
  obtain ⟨t, htail, htmem, htne⟩ :=
    LruList_RefreshEntry_tail s.m_lruList entry hinv.lru_nodup hmem htwo
  have htlt : t < s.m_entries.length := hinv.lru_valid t htmem
  obtain ⟨et, het⟩ : ∃ et, s.m_entries[t]? = some et :=
    ⟨s.m_entries[t], List.getElem?_eq_getElem htlt⟩
  have hentE : ((s.m_entries.set entry e.IncrementUseCount)
      ++ [CCNxStandardContentStoreEntry.Create newItem.packet])[entry]?
      = some e.IncrementUseCount := by
    rw [List.getElem?_append_left (by simpa using hlt)]
    simp [List.getElem?_set, hlt]
  have hentT : ((s.m_entries.set entry e.IncrementUseCount)
      ++ [CCNxStandardContentStoreEntry.Create newItem.packet])[t]? = some et := by
    rw [List.getElem?_append_left (by simpa using htlt)]
    have hne : ¬ entry = t := fun h => htne h.symm
    simp [List.getElem?_set, hne, het]
  have htailPacket : LruList_GetTailPacket
      ((s.m_entries.set entry e.IncrementUseCount)
        ++ [CCNxStandardContentStoreEntry.Create newItem.packet])
      (LruList_RefreshEntry s.m_lruList entry) = some et.packet := by
    simp only [LruList_GetTailPacket, htail, hentT, Option.map_some']
  have hTkey : ¬ (strategyOf workItem.packet).sameKey et.packet workItem.packet :=
    honly t htmem htne et het
  -- the insertion returns
  obtain ⟨o, ho⟩ := ServiceAddContentObject_returns
    { s with m_entries := s.m_entries.set entry e.IncrementUseCount
             m_lruList := LruList_RefreshEntry s.m_lruList entry }
    newItem hcbA hobj (Or.inr ⟨et.packet, htailPacket⟩)
  refine ⟨_, _, o, hstep1, ho, ?_⟩
  have hlen1 : (LruList_RefreshEntry s.m_lruList entry).length = s.m_lruList.length := by
    simp only [LruList_RefreshEntry, List.length_cons, List.length_erase_of_mem hmem]
    omega
  have hmem1 : entry ∈ LruList_RefreshEntry s.m_lruList entry := by
    simp [LruList_RefreshEntry]
  rcases ServiceAddContentObject_cases _ newItem o ho with
    ⟨hstored, -, -⟩ | ⟨-, s1, r1, hev, hadd⟩
  · exact absurd ((CSMap.find_eq_none_iff _ _).mpr hnew) hstored
  · -- room is made by removing the packet of the tail
    have hrem : RemoveContentObject
        { s with m_entries := (s.m_entries.set entry e.IncrementUseCount)
                    ++ [CCNxStandardContentStoreEntry.Create newItem.packet]
                 m_lruList := LruList_RefreshEntry s.m_lruList entry } et.packet
        = (s1, r1) := by
      have hnot : ¬ (LruList_RefreshEntry s.m_lruList entry).length < s.m_objectCapacity := by
        rw [hlen1]; omega
      simpa [ServiceAddContentObject_evict, GetObjectCount, GetObjectCapacity,
        LruList_GetSize, hnot, htailPacket] using hev
    have hwraps : ¬ wrapsPacket ((s.m_entries.set entry e.IncrementUseCount)
        ++ [CCNxStandardContentStoreEntry.Create newItem.packet]) et.packet entry = true := by
      intro hw
      simp only [wrapsPacket, hentE, decide_eq_true_eq] at hw
      have hw' : e.packet = et.packet := hw
      exact hTkey (hw' ▸ hsame)
    have hcons1 := RemoveContentObject_consult (strategyOf workItem.packet)
      { s with m_entries := (s.m_entries.set entry e.IncrementUseCount)
                  ++ [CCNxStandardContentStoreEntry.Create newItem.packet]
               m_lruList := LruList_RefreshEntry s.m_lruList entry }
      et.packet workItem.packet hTkey
    have hlru1 := RemoveContentObject_lru_mem
      { s with m_entries := (s.m_entries.set entry e.IncrementUseCount)
                  ++ [CCNxStandardContentStoreEntry.Create newItem.packet]
               m_lruList := LruList_RefreshEntry s.m_lruList entry }
      et.packet entry hmem1 hwraps
    have hfr1 := (RemoveContentObject_frame
      { s with m_entries := (s.m_entries.set entry e.IncrementUseCount)
                  ++ [CCNxStandardContentStoreEntry.Create newItem.packet]
               m_lruList := LruList_RefreshEntry s.m_lruList entry } et.packet).1
    rw [hrem] at hcons1 hlru1 hfr1
    simp only [] at hcons1 hlru1 hfr1
    have hcons0 : (strategyOf workItem.packet).consult s1 workItem.packet = some entry := by
      rw [hcons1, ← hf]
      cases strategyOf workItem.packet <;> rfl
    have hentE1 : s1.m_entries[entry]?
        = some { packet := e.packet, useCount := e.useCount + 1 } := by
      rw [hfr1, hentE]; rfl
    cases r1 with
    | false =>
      rw [ServiceAddContentObject_add_false] at hadd
      simp only [Except.ok.injEq, Prod.mk.injEq] at hadd
      rw [← hadd.1]
      exact ⟨hcons0, by rw [ServiceMatchInterest_find_eq_consult]; exact hcons0, hlru1, hentE1⟩
    | true =>
      rw [ServiceAddContentObject_add_true] at hadd
      have hcons2 := AddMapEntry_consult (strategyOf workItem.packet) _ newItem.packet
        workItem.packet _ _ hadd hkey
      obtain ⟨-, hent3, hlru3, -⟩ := AddMapEntry_frame _ _ _ _ hadd
      simp only [] at hcons2 hent3 hlru3
      have hcons3 : (strategyOf workItem.packet).consult o.store workItem.packet
          = some entry := by
        rw [hcons2, ← hcons0]
        cases strategyOf workItem.packet <;> rfl
      refine ⟨hcons3, by rw [ServiceMatchInterest_find_eq_consult]; exact hcons3, ?_, ?_⟩
      · rw [hlru3]; exact List.mem_cons_of_mem _ hlru1
      · rw [hent3]; exact hentE1

/-- C7 witness: a store of capacity 2 with two differently named objects; the older
one is looked up, then a third object is inserted. -/
theorem ServiceAddContentObject_after_hit_witness :
    ∃ s1 cbs o, ServiceMatchInterest allValid storeWithTwoNamed
          (workItemOf (interest (some ⟨[[1]]⟩) none none)) = .ok (s1, cbs)
      ∧ ServiceAddContentObject s1 (workItemOf (contentObject (some ⟨[[3]]⟩) [9])) = .ok o
      ∧ (strategyOf (workItemOf (interest (some ⟨[[1]]⟩) none none)).packet).consult o.store
          (workItemOf (interest (some ⟨[[1]]⟩) none none)).packet = some 0
      ∧ ServiceMatchInterest_find o.store (workItemOf (interest (some ⟨[[1]]⟩) none none))
          = some 0
      ∧ 0 ∈ o.store.m_lruList
      ∧ o.store.m_entries[0]?
          = some { packet := (CCNxStandardContentStoreEntry.Create
                      (contentObject (some ⟨[[1]]⟩) [7])).packet,
                   useCount := (CCNxStandardContentStoreEntry.Create
                      (contentObject (some ⟨[[1]]⟩) [7])).useCount + 1 } :=
  ServiceAddContentObject_after_hit allValid storeWithTwoNamed
    (workItemOf (interest (some ⟨[[1]]⟩) none none))
    (workItemOf (contentObject (some ⟨[[3]]⟩) [9])) 0
    (CCNxStandardContentStoreEntry.Create (contentObject (some ⟨[[1]]⟩) [7]))
    ((Reachable.init 2 .User .User).storeAfter _)
    (by decide) (by decide) (by decide) (by decide) (by decide) (by decide) (by decide)
    (by decide) (by decide)
    (by
      intro h hh hne e' he'
      have hl : storeWithTwoNamed.m_lruList = [1, 0] := by decide
      rw [hl] at hh
      have h1 : h = 1 := by
        simp only [List.mem_cons, List.mem_singleton, List.not_mem_nil, or_false] at hh
        omega
      subst h1
      have hent : storeWithTwoNamed.m_entries[1]?
          = some (CCNxStandardContentStoreEntry.Create (contentObject (some ⟨[[2]]⟩) [8])) := by
        decide
      rw [hent] at he'
      cases he'
      decide)
    (by decide) (by decide) (by decide)

/-- C7 as stated fails in three ways.  (1) Capacity 1: the store holds the object named
1; a lookup by that name hits it; the next insertion (an object named 2) is serviced
with result true and evicts it, and the same lookup misses.  (2) Capacity 2, two
stored objects with the same name 1: a lookup by that name hits the newer one; the next
insertion evicts the older one, whose removal erases the shared name from byName, and
the same lookup misses.  (3) Capacity 2, two stored objects named 1 and 2: a lookup by
the name 1 hits the first; the next insertion is a new object that is also named 1, and
the same lookup then returns the new object, not the entry that was hit. -/
theorem ServiceAddContentObject_after_hit_evicts :
    (GetObjectCount storeWithOneNamedFull = GetObjectCapacity storeWithOneNamedFull
      ∧ (ServiceMatchInterest allValid storeWithOneNamedFull
            (workItemOf (interest (some ⟨[[1]]⟩) none none))).map Prod.snd
          = .ok [(workItemOf (interest (some ⟨[[1]]⟩) none none)).SetContentStorePacket
                  (contentObject (some ⟨[[1]]⟩) [7])]
      ∧ (ServiceAddContentObject
            (storeAfterLookup allValid storeWithOneNamedFull
              (workItemOf (interest (some ⟨[[1]]⟩) none none)))
            (workItemOf (contentObject (some ⟨[[2]]⟩) [8]))).map (fun o => o.result)
          = .ok true
      ∧ (ServiceMatchInterest allValid
            (storeAfter
              (storeAfterLookup allValid storeWithOneNamedFull
                (workItemOf (interest (some ⟨[[1]]⟩) none none)))
              [contentObject (some ⟨[[2]]⟩) [8]])
            (workItemOf (interest (some ⟨[[1]]⟩) none none))).map Prod.snd
          = .ok [workItemOf (interest (some ⟨[[1]]⟩) none none)])
    ∧ (GetObjectCount storeWithSameName = GetObjectCapacity storeWithSameName
      ∧ (ServiceMatchInterest allValid storeWithSameName
            (workItemOf (interest (some ⟨[[1]]⟩) none none))).map Prod.snd
          = .ok [(workItemOf (interest (some ⟨[[1]]⟩) none none)).SetContentStorePacket
                  (contentObject (some ⟨[[1]]⟩) [8])]
      ∧ (ServiceAddContentObject
            (storeAfterLookup allValid storeWithSameName
              (workItemOf (interest (some ⟨[[1]]⟩) none none)))
            (workItemOf (contentObject (some ⟨[[2]]⟩) [9]))).map (fun o => o.result)
          = .ok true
      ∧ (ServiceMatchInterest allValid
            (storeAfter
              (storeAfterLookup allValid storeWithSameName
                (workItemOf (interest (some ⟨[[1]]⟩) none none)))
              [contentObject (some ⟨[[2]]⟩) [9]])
            (workItemOf (interest (some ⟨[[1]]⟩) none none))).map Prod.snd
          = .ok [workItemOf (interest (some ⟨[[1]]⟩) none none)])
    ∧ (GetObjectCount storeWithTwoNamed = GetObjectCapacity storeWithTwoNamed
      ∧ (ServiceMatchInterest allValid storeWithTwoNamed
            (workItemOf (interest (some ⟨[[1]]⟩) none none))).map Prod.snd
          = .ok [(workItemOf (interest (some ⟨[[1]]⟩) none none)).SetContentStorePacket
                  (contentObject (some ⟨[[1]]⟩) [7])]
      ∧ (ServiceAddContentObject
            (storeAfterLookup allValid storeWithTwoNamed
              (workItemOf (interest (some ⟨[[1]]⟩) none none)))
            (workItemOf (contentObject (some ⟨[[1]]⟩) [9]))).map (fun o => o.result)
          = .ok true
      ∧ (ServiceMatchInterest allValid
            (storeAfter
              (storeAfterLookup allValid storeWithTwoNamed
                (workItemOf (interest (some ⟨[[1]]⟩) none none)))
              [contentObject (some ⟨[[1]]⟩) [9]])
            (workItemOf (interest (some ⟨[[1]]⟩) none none))).map Prod.snd
          = .ok [(workItemOf (interest (some ⟨[[1]]⟩) none none)).SetContentStorePacket
                  (contentObject (some ⟨[[1]]⟩) [9])]) := by
  refine ⟨⟨rfl, rfl, rfl, rfl⟩, ⟨rfl, rfl, rfl, rfl⟩, ⟨rfl, rfl, rfl, rfl⟩⟩

/-! ## C3, C5, C10: the store with a nameless object -/

/-- C3 (code evaluated at the failing input): a store of capacity 1 holds one nameless
object (count = capacity).  Servicing the insertion of a second object, not stored,
ends with result false: the hash map is empty (the nameless object has left it), the
new object is in no map, and the LRU list still holds the entry of the nameless object
and not the new one. -/
theorem ServiceAddContentObject_full_nameless_tail :
    ServiceAddContentObjects (emptyStore 1 .User .User) [workItemOf (contentObject none [7])]
        = .ok (storeWithOneNameless 1)
      ∧ GetObjectCount (storeWithOneNameless 1) = GetObjectCapacity (storeWithOneNameless 1)
      ∧ hashKey (contentObject (some ⟨[[2]]⟩) [8])
          ∉ CSMap.keys (storeWithOneNameless 1).m_csByHash
      ∧ (ServiceAddContentObject (storeWithOneNameless 1)
            (workItemOf (contentObject (some ⟨[[2]]⟩) [8]))).map
          (fun o => (o.result, GetObjectCount o.store, o.store.m_lruList, o.store.m_csByHash,
            o.store.m_csByName, o.store.m_csByNameKeyid,
            o.store.m_entries.map (fun e => e.packet)))
        = .ok (false, 1, [0], [], [], [((none, some [55]), 0)],
            [contentObject none [7], contentObject (some ⟨[[2]]⟩) [8]]) := by
  refine ⟨rfl, rfl, by decide, rfl⟩

/-- C5 (code evaluated at the failing input): a store holds one nameless object; every
entry is expired.  A lookup by the hash of the object finds its entry in byHash, which
is invalid; after the lookup the count is still 1, the entry is still in the LRU list
and still bound in byNameKeyid; only byHash has lost it.  The callback gets the work
item without an object. -/
theorem ServiceMatchInterest_invalid_nameless :
    ServiceAddContentObjects (emptyStore 2 .User .User) [workItemOf (contentObject none [7])]
        = .ok (storeWithOneNameless 2)
      ∧ (strategyOf (interest none none (some [7]))).consult (storeWithOneNameless 2)
        (interest none none (some [7])) = some 0
      ∧ ((storeWithOneNameless 2).m_entries[0]?).map (IsEntryValid allExpired) = some false
      ∧ GetObjectCount (storeWithOneNameless 2) = 1
      ∧ (ServiceMatchInterest allExpired (storeWithOneNameless 2)
            (workItemOf (interest none none (some [7])))).map
          (fun r => (GetObjectCount r.1, r.1.m_lruList, r.1.m_csByHash, r.1.m_csByNameKeyid,
            r.2))
        = .ok (1, [0], [], [((none, some [55]), 0)],
            [workItemOf (interest none none (some [7]))]) := by
  refine ⟨rfl, rfl, rfl, rfl, rfl⟩

/-- C10 (code evaluated at the failing input): a nameless object is inserted into an
empty store of capacity 2.  A request for it by its hash without a keyid restriction
returns it, but the request by its hash with the keyid restriction that matches the
key identifier of the object is a miss: the store is unchanged and the callback gets
the work item without an object. -/
theorem ServiceMatchInterest_nameless_keyid_miss :
    ServiceAddContentObjects (emptyStore 2 .User .User) [workItemOf (contentObject none [7])]
        = .ok (storeWithOneNameless 2)
      ∧ GetKeyidOrRestriction (contentObject none [7]) = .ok (some magicHashValue)
      ∧ (ServiceMatchInterest allValid (storeWithOneNameless 2)
            (workItemOf (interest none none (some [7])))).map Prod.snd
          = .ok [(workItemOf (interest none none (some [7]))).SetContentStorePacket
                  (contentObject none [7])]
      ∧ ServiceMatchInterest allValid (storeWithOneNameless 2)
          (workItemOf (interest none (some magicHashValue) (some [7])))
        = .ok (storeWithOneNameless 2,
            [workItemOf (interest none (some magicHashValue) (some [7]))])
      ∧ (workItemOf (interest none (some magicHashValue) (some [7]))).contentStorePacket
          = none := by
  refine ⟨rfl, rfl, rfl, rfl, rfl⟩

/-! ## C11: what `RemoveContentObject` returns -/

theorem RemoveContentObject_result_iff (s : CCNxStandardContentStore)
    (cPacket : CCNxPacket) :
    (RemoveContentObject s cPacket).2 = true ↔
      hashKey cPacket ∈ CSMap.keys s.m_csByHash
        ∧ (if cPacket.message.name.isSome then
            nameKeyidKey cPacket ∈ CSMap.keys s.m_csByNameKeyid
          else hashKeyidKey cPacket ∈ CSMap.keys s.m_csByHashKeyid) := by
  rw [← CSMap.find_isSome_iff, ← CSMap.find_isSome_iff, ← CSMap.find_isSome_iff]
  unfold RemoveContentObject
  simp only [CSMap.erase, DeleteLruListPacket]
  by_cases h1 : (CSMap.find s.m_csByHash (hashKey cPacket)).isSome = true
  · by_cases hn : cPacket.message.name.isSome = true
    · by_cases h3 : (CSMap.find s.m_csByNameKeyid (nameKeyidKey cPacket)).isSome = true
      · simp [h1, hn, h3]
      · simp [h1, hn, h3]
    · by_cases h3 : (CSMap.find s.m_csByHashKeyid (hashKeyidKey cPacket)).isSome = true
      · simp [h1, hn, h3]
      · simp [h1, hn, h3]
  · simp [h1]

/-- C11 (code evaluated at the failing inputs): the key of the object is in byHash and
`RemoveContentObject` returns false; the object is erased from byHash and its entry
stays in the LRU list.  (1) Two objects with the same name are stored and the newer one
is removed by a lookup that finds it expired, which erases the name keys the two share;
the removal of the older one then returns false.  (2) A stored nameless object: its
removal returns false. -/
theorem RemoveContentObject_false_though_in_byHash :
    (hashKey (contentObject (some ⟨[[1]]⟩) [7])
          ∈ CSMap.keys (storeAfterLookup allExpired storeWithSameName
              (workItemOf (interest (some ⟨[[1]]⟩) none none))).m_csByHash
      ∧ (storeAfterLookup allExpired storeWithSameName
            (workItemOf (interest (some ⟨[[1]]⟩) none none))).m_lruList = [0]
      ∧ RemoveContentObject
            (storeAfterLookup allExpired storeWithSameName
              (workItemOf (interest (some ⟨[[1]]⟩) none none)))
            (contentObject (some ⟨[[1]]⟩) [7])
          = ({ storeAfterLookup allExpired storeWithSameName
                (workItemOf (interest (some ⟨[[1]]⟩) none none)) with m_csByHash := [] },
             false))
    ∧ (hashKey (contentObject none [7]) ∈ CSMap.keys (storeWithOneNameless 2).m_csByHash
      ∧ (storeWithOneNameless 2).m_lruList = [0]
      ∧ RemoveContentObject (storeWithOneNameless 2) (contentObject none [7])
          = ({ storeWithOneNameless 2 with m_csByHash := [] }, false)) := by
  refine ⟨⟨by decide, rfl, rfl⟩, ⟨by decide, rfl, rfl⟩⟩

/-! ## C12: removing what was just added -/

/-- C12 (code evaluated at the failing input): a nameless content object, indexed
nowhere, is added to the maps of the empty store and then removed.  The removal
returns false, and the object is still bound in byNameKeyid, which was empty before. -/
theorem RemoveContentObject_after_AddMapEntry_nameless :
    (emptyStore 2 .User .User).m_csByNameKeyid = []
      ∧ (AddMapEntry (emptyStore 2 .User .User) (contentObject none [7]) 0).map
          (fun r =>
            ((RemoveContentObject r.1 (contentObject none [7])).2,
             (RemoveContentObject r.1 (contentObject none [7])).1.m_csByHash,
             (RemoveContentObject r.1 (contentObject none [7])).1.m_csByName,
             (RemoveContentObject r.1 (contentObject none [7])).1.m_csByNameKeyid,
             (RemoveContentObject r.1 (contentObject none [7])).1.m_csByHashKeyid))
        = .ok (false, [], [], [((none, some [55]), 0)], []) := by
  refine ⟨rfl, rfl⟩

/-! ## C13: the service time -/

theorem foldl_add_length_mod (segments : List CCNxByteArray) (acc : Nat)
    (h : acc + (segments.map List.length).sum < 2 ^ 64) :
    segments.foldl (fun acc segment => (acc + segment.length) % 2 ^ 64) acc
      = acc + (segments.map List.length).sum := by
  induction segments generalizing acc with
  | nil => simp
  | cons seg rest ih =>
    simp only [List.foldl_cons, List.map_cons, List.sum_cons] at h ⊢
    have h1 : (acc + seg.length) % 2 ^ 64 = acc + seg.length :=
      Nat.mod_eq_of_lt (by omega)
    rw [h1, ih _ (by omega)]
    omega

theorem wrapInt64_of_fits (x : Int) (h : fitsInt64 x) : wrapInt64 x = x := by
  unfold fitsInt64 at h
  unfold wrapInt64
  rw [Int.emod_eq_of_lt (by omega) (by omega)]
  omega

/-- C13 (amended): when the number L of name bytes, the product of the slope and L, and
the sum of the constant and that product each fit a signed 64-bit integer, the service
time of a work item is the constant plus the slope times L, where L is the sum of the
byte lengths of the segments of the name of the request (0 without a name); a request
that carries no name is served in exactly the constant, whatever the constant is. -/
theorem GetServiceTime_eq_of_fits (s : CCNxStandardContentStore)
    (workItem : CCNxStandardForwarderWorkItem)
    (hbytes : totalSegmentBytes workItem.packet.message.name < 2 ^ 63)
    (hprod : fitsInt64
      (s.m_layerDelaySlope * (totalSegmentBytes workItem.packet.message.name : Int)))
    (hsum : fitsInt64
      (s.m_layerDelayConstant
        + s.m_layerDelaySlope * (totalSegmentBytes workItem.packet.message.name : Int))) :
    GetServiceTime s workItem
        = s.m_layerDelayConstant
          + s.m_layerDelaySlope * (totalSegmentBytes workItem.packet.message.name : Int)
      ∧ totalSegmentBytes none = 0
      ∧ ∀ (packetType : CCNxFixedHeaderType) (messageType : CCNxMessageType)
          (keyid hash : Option CCNxByteArray) (contentObjectHash : CCNxByteArray)
          (csPacket : Option CCNxPacket) (connections : Option (List Nat)),
          GetServiceTime s
            { packet := { packetType := packetType
                          message := { messageType := messageType, name := none,
                                       keyidRestriction := keyid, hashRestriction := hash }
                          contentObjectHash := contentObjectHash }
              contentStorePacket := csPacket
              connectionsList := connections }
          = s.m_layerDelayConstant := by
  refine ⟨?_, rfl, fun _ _ _ _ _ _ _ => rfl⟩
  unfold GetServiceTime
  cases hname : workItem.packet.message.name with
  | none => simp [totalSegmentBytes]
  | some name =>
    rw [hname] at hbytes hprod hsum
    simp only [totalSegmentBytes] at hbytes hprod hsum ⊢
    have hL : nameBytes name = (name.segments.map List.length).sum := by
      unfold nameBytes
      rw [foldl_add_length_mod _ _ (by omega)]
      omega
    have hLfits : fitsInt64 ((name.segments.map List.length).sum : Int) := by
      unfold fitsInt64
      constructor <;> omega
    simp only [hL]
    rw [wrapInt64_of_fits _ hLfits, wrapInt64_of_fits _ hprod, wrapInt64_of_fits _ hsum]

/-- C13 witness: the default constant (1000 ns) and slope (10 ns per byte), and a name
of two segments with 1 and 2 bytes: the service time is 1030 ns. -/
theorem GetServiceTime_eq_of_fits_witness :
    totalSegmentBytes
        (workItemOf (interest (some ⟨[[1], [2, 3]]⟩) none none)).packet.message.name < 2 ^ 63
      ∧ fitsInt64
          ((emptyStore 2 .User .User).m_layerDelaySlope
            * (totalSegmentBytes
                (workItemOf (interest (some ⟨[[1], [2, 3]]⟩) none none)).packet.message.name
                : Int))
      ∧ fitsInt64
          ((emptyStore 2 .User .User).m_layerDelayConstant
            + (emptyStore 2 .User .User).m_layerDelaySlope
              * (totalSegmentBytes
                  (workItemOf (interest (some ⟨[[1], [2, 3]]⟩) none none)).packet.message.name
                  : Int))
      ∧ GetServiceTime (emptyStore 2 .User .User)
          (workItemOf (interest (some ⟨[[1], [2, 3]]⟩) none none)) = 1030
      ∧ (GetServiceTime (emptyStore 2 .User .User)
            (workItemOf (interest (some ⟨[[1], [2, 3]]⟩) none none))
          = (emptyStore 2 .User .User).m_layerDelayConstant
            + (emptyStore 2 .User .User).m_layerDelaySlope
              * (totalSegmentBytes
                  (workItemOf (interest (some ⟨[[1], [2, 3]]⟩) none none)).packet.message.name
                  : Int)
        ∧ totalSegmentBytes none = 0
        ∧ ∀ (packetType : CCNxFixedHeaderType) (messageType : CCNxMessageType)
            (keyid hash : Option CCNxByteArray) (contentObjectHash : CCNxByteArray)
            (csPacket : Option CCNxPacket) (connections : Option (List Nat)),
            GetServiceTime (emptyStore 2 .User .User)
              { packet := { packetType := packetType
                            message := { messageType := messageType, name := none,
                                         keyidRestriction := keyid, hashRestriction := hash }
                            contentObjectHash := contentObjectHash }
                contentStorePacket := csPacket
                connectionsList := connections }
            = (emptyStore 2 .User .User).m_layerDelayConstant) :=
  ⟨by decide, by decide, by decide, by decide,
    GetServiceTime_eq_of_fits (emptyStore 2 .User .User)
      (workItemOf (interest (some ⟨[[1], [2, 3]]⟩) none none))
      (by decide) (by decide) (by decide)⟩

/-- C13 as stated fails: with the constant 1000 ns and the slope 2^62 ns per byte, a
name of one segment of 4 bytes gives the product 2^64, which a signed 64-bit `Time`
holds as 0: the service time is 1000 ns, and the constant plus the slope times L is
18446744073709552616. -/
theorem GetServiceTime_wraps :
    fitsInt64 (2 ^ 62)
      ∧ totalSegmentBytes
          (workItemOf (interest (some ⟨[[1, 2, 3, 4]]⟩) none none)).packet.message.name = 4
      ∧ GetServiceTime { emptyStore 2 .User .User with m_layerDelaySlope := 2 ^ 62 }
          (workItemOf (interest (some ⟨[[1, 2, 3, 4]]⟩) none none)) = 1000
      ∧ ({ emptyStore 2 .User .User with m_layerDelaySlope := 2 ^ 62 }).m_layerDelayConstant
          + ({ emptyStore 2 .User .User with m_layerDelaySlope := 2 ^ 62 }).m_layerDelaySlope
            * (totalSegmentBytes
                (workItemOf (interest (some ⟨[[1, 2, 3, 4]]⟩) none none)).packet.message.name
                : Int)
        = 18446744073709552616 := by
  refine ⟨by decide, by decide, by decide, by decide⟩

/-! ## More lemmas on a serviced insertion -/

/-- Making room changes neither the entries, the capacity nor the callbacks. -/
theorem ServiceAddContentObject_evict_frame (s0 s1 : CCNxStandardContentStore) (r1 : Bool)
    (h : ServiceAddContentObject_evict s0 = .ok (s1, r1)) :
    s1.m_entries = s0.m_entries ∧ s1.m_objectCapacity = s0.m_objectCapacity
      ∧ s1.m_matchInterestCallback = s0.m_matchInterestCallback
      ∧ s1.m_addContentObjectCallback = s0.m_addContentObjectCallback := by
  unfold ServiceAddContentObject_evict at h
  split_ifs at h with hroom
  · cases h
    exact ⟨rfl, rfl, rfl, rfl⟩
  · cases ht : LruList_GetTailPacket s0.m_entries s0.m_lruList with
    | none => simp [ht] at h
    | some tailPacket =>
      simp only [ht] at h
      have hr : RemoveContentObject s0 tailPacket = (s1, r1) := by
        simpa using h
      have hfr := RemoveContentObject_frame s0 tailPacket
      rw [hr] at hfr
      exact ⟨hfr.1, hfr.2.1, hfr.2.2.1, hfr.2.2.2.1⟩

/-- What making room went through: either there was room, or the packet at the tail
of the LRU list was removed. -/
theorem ServiceAddContentObject_evict_cases (s0 s1 : CCNxStandardContentStore) (r1 : Bool)
    (h : ServiceAddContentObject_evict s0 = .ok (s1, r1)) :
    (s0.m_lruList.length < s0.m_objectCapacity ∧ s1 = s0 ∧ r1 = true)
      ∨ (¬ s0.m_lruList.length < s0.m_objectCapacity
          ∧ ∃ tailPacket, LruList_GetTailPacket s0.m_entries s0.m_lruList = some tailPacket
            ∧ RemoveContentObject s0 tailPacket = (s1, r1)) := by
  unfold ServiceAddContentObject_evict at h
  simp only [GetObjectCount, GetObjectCapacity, LruList_GetSize] at h
  split_ifs at h with hroom
  · left
    simp only [Except.ok.injEq, Prod.mk.injEq] at h
    exact ⟨hroom, h.1.symm, h.2.symm⟩
  · right
    refine ⟨hroom, ?_⟩
    cases ht : LruList_GetTailPacket s0.m_entries s0.m_lruList with
    | none => simp [ht] at h
    | some tailPacket =>
      simp only [ht] at h
      exact ⟨tailPacket, rfl, by simpa using h⟩

/-! ## C14: the size of byHash and the size of the eviction list -/

theorem Reachable.storeAfterLookup {s : CCNxStandardContentStore} (st : EntryStatus)
    (workItem : CCNxStandardForwarderWorkItem) (h : Reachable s) :
    Reachable (storeAfterLookup st s workItem) := by
  unfold CCNx.storeAfterLookup
  cases hs : ServiceMatchInterest st s workItem with
  | error f => exact h
  | ok r => exact Reachable.matchInterest st s r.1 workItem r.2 h hs

/-- C14 (code evaluated at the failing input): a nameless object is inserted into an
empty store of capacity 2 and then looked up by its hash when it is expired.  Both
steps are serviced, the state is reachable, and in it byHash has no key while the
eviction list has one entry. -/
theorem Reachable_byHash_size_ne_count :
    ServiceAddContentObjects (emptyStore 2 .User .User) [workItemOf (contentObject none [7])]
        = .ok (storeWithOneNameless 2)
      ∧ (ServiceMatchInterest allExpired (storeWithOneNameless 2)
            (workItemOf (interest none none (some [7])))).map Prod.fst
          = .ok (storeAfterLookup allExpired (storeWithOneNameless 2)
              (workItemOf (interest none none (some [7]))))
      ∧ Reachable (storeAfterLookup allExpired (storeWithOneNameless 2)
          (workItemOf (interest none none (some [7]))))
      ∧ CSMap.size (storeAfterLookup allExpired (storeWithOneNameless 2)
          (workItemOf (interest none none (some [7])))).m_csByHash = 0
      ∧ LruList_GetSize (storeAfterLookup allExpired (storeWithOneNameless 2)
          (workItemOf (interest none none (some [7])))).m_lruList = 1 := by
  refine ⟨rfl, rfl, ?_, rfl, rfl⟩
  exact ((Reachable.init 2 .User .User).storeAfter _).storeAfterLookup _ _

/-! ## C17: unregistered completion callbacks -/

/-- C17: the constructor leaves both callback slots at their null defaults; on a store
`sM` whose lookup callback is the null default every serviced lookup is fatal, whatever
the request and the state of the entries, and on a store `s` whose insertion callback is
the null default every serviced insertion is fatal. -/
theorem Service_null_callback_fatal (sM s : CCNxStandardContentStore)
    (hM : sM.m_matchInterestCallback = .Null)
    (hA : s.m_addContentObjectCallback = .Null) :
    (CCNxStandardContentStore.new.m_matchInterestCallback = .Null
        ∧ CCNxStandardContentStore.new.m_addContentObjectCallback = .Null)
      ∧ (∀ st workItem, ∃ f, ServiceMatchInterest st sM workItem = .error f)
      ∧ (∀ workItem, ∃ f, ServiceAddContentObject s workItem = .error f) := by
  refine ⟨⟨rfl, rfl⟩, ?_, ?_⟩
  · intro st workItem
    revert hM
    generalize sM = s
    intro hM
    cases hr : ServiceMatchInterest st s workItem with
    | error f => exact ⟨f, rfl⟩
    | ok r =>
      exfalso
      obtain ⟨s', cbs⟩ := r
      unfold ServiceMatchInterest at hr
      split_ifs at hr
      cases hf : ServiceMatchInterest_find s workItem with
      | none => simp [hf, hM, Callback.invoke] at hr
      | some entry =>
        simp only [hf] at hr
        cases he : s.m_entries[entry]? with
        | none => simp [he] at hr
        | some e =>
          simp only [he] at hr
          split_ifs at hr
          · simp [hM, Callback.invoke] at hr
          · rw [(RemoveContentObject_frame s e.packet).2.2.1] at hr
            simp [hM, Callback.invoke] at hr
  · intro workItem
    cases hr : ServiceAddContentObject s workItem with
    | error f => exact ⟨f, rfl⟩
    | ok o =>
      exfalso
      unfold ServiceAddContentObject at hr
      simp only [] at hr
      cases hf : FindEntryInHashMap s workItem.packet with
      | some entry => simp [hf, hA, Callback.invoke] at hr
      | none =>
        simp only [hf] at hr
        cases hev : ServiceAddContentObject_evict
            { s with m_entries := s.m_entries
                ++ [CCNxStandardContentStoreEntry.Create workItem.packet] } with
        | error f => simp [hev] at hr
        | ok r =>
          obtain ⟨s1, r1⟩ := r
          simp only [hev] at hr
          have hcb1 : s1.m_addContentObjectCallback = .Null := by
            rw [(ServiceAddContentObject_evict_frame _ s1 r1 hev).2.2.2]; exact hA
          cases hadd : ServiceAddContentObject_add s1 r1 workItem.packet s.m_entries.length with
          | error f => simp [hadd] at hr
          | ok r3 =>
            obtain ⟨s3, r3⟩ := r3
            simp only [hadd] at hr
            have hcb3 : s3.m_addContentObjectCallback = .Null := by
              cases r1 with
              | false =>
                rw [ServiceAddContentObject_add_false] at hadd
                simp only [Except.ok.injEq, Prod.mk.injEq] at hadd
                rw [← hadd.1]; exact hcb1
              | true =>
                rw [ServiceAddContentObject_add_true] at hadd
                rw [(AddMapEntry_frame _ _ _ _ hadd).2.2.2.2.2.1]; exact hcb1
            simp [hcb3, Callback.invoke] at hr

/-- C17 witness: a store that holds one object and whose lookup callback is the null
default, and an empty store whose insertion callback is the null default. -/
theorem Service_null_callback_fatal_witness :
    (SetMatchInterestCallback storeWithOneNamed .Null).m_matchInterestCallback = .Null
      ∧ (emptyStore 2 .User .Null).m_addContentObjectCallback = .Null
      ∧ ((CCNxStandardContentStore.new.m_matchInterestCallback = .Null
            ∧ CCNxStandardContentStore.new.m_addContentObjectCallback = .Null)
        ∧ (∀ st workItem, ∃ f, ServiceMatchInterest st
            (SetMatchInterestCallback storeWithOneNamed .Null) workItem = .error f)
        ∧ (∀ workItem, ∃ f, ServiceAddContentObject
            (emptyStore 2 .User .Null) workItem = .error f)) :=
  ⟨by decide, by decide,
    Service_null_callback_fatal (SetMatchInterestCallback storeWithOneNamed .Null)
      (emptyStore 2 .User .Null) (by decide) (by decide)⟩

/-! ## C18: the demultiplexer -/

/-- C18: `ServiceInputQueue` looks at the packet type of the work item only.  An
Interest is handled by `ServiceMatchInterest` (the outcome is the outcome of that
handler), an Object by `ServiceAddContentObject`, and any other packet type fails the
assertion, which returns no store. -/
theorem ServiceInputQueue_demux (st : EntryStatus) (s : CCNxStandardContentStore)
    (workItem : CCNxStandardForwarderWorkItem) :
    (workItem.packet.packetType = .Interest
        ∧ ServiceInputQueue st s workItem = ServiceMatchInterest st s workItem)
      ∨ (workItem.packet.packetType = .Object
        ∧ ServiceInputQueue st s workItem
            = (ServiceAddContentObject s workItem).map (fun o => (o.store, o.callbacks)))
      ∨ (workItem.packet.packetType ≠ .Interest ∧ workItem.packet.packetType ≠ .Object
        ∧ ServiceInputQueue st s workItem = .error .assertFailed) := by
  unfold ServiceInputQueue
  cases hp : workItem.packet.packetType with
  | Interest => exact Or.inl ⟨rfl, rfl⟩
  | Object =>
    refine Or.inr (Or.inl ⟨rfl, ?_⟩)
    cases ServiceAddContentObject s workItem <;> rfl
  | InterestReturn =>
    exact Or.inr (Or.inr ⟨by simp, by simp, rfl⟩)

/-! ## C20: a request whose name has no segment -/

/-- C20: a request whose name is present with zero segments is looked up exactly like
the same request without a name: in byHashKeyid when it has a keyid restriction, in
byHash otherwise, whatever byName and byNameKeyid hold; yet `AddMapEntry` binds a
content object whose name is present with zero segments in byName and byNameKeyid. -/
theorem ServiceMatchInterest_find_zero_segments (s : CCNxStandardContentStore)
    (workItem : CCNxStandardForwarderWorkItem) (name : CCNxName)
    (cPacket : CCNxPacket) (newEntry : Nat)
    (hname : workItem.packet.message.name = some name)
    (hzero : name.GetSegmentCount = 0)
    (hobj : cPacket.message.messageType = .ContentObject)
    (honame : cPacket.message.name = some name) :
    ServiceMatchInterest_find s workItem
        = (if workItem.packet.message.HasKeyidRestriction then
            CSMap.find s.m_csByHashKeyid (hashKeyidKey workItem.packet)
          else CSMap.find s.m_csByHash (hashKey workItem.packet))
      ∧ ServiceMatchInterest_find s workItem
        = ServiceMatchInterest_find s
            { workItem with
              packet := { workItem.packet with
                message := { workItem.packet.message with name := none } } }
      ∧ (∀ byName byNameKeyid,
          ServiceMatchInterest_find
              { s with m_csByName := byName, m_csByNameKeyid := byNameKeyid } workItem
            = ServiceMatchInterest_find s workItem)
      ∧ ∃ r, AddMapEntry s cPacket newEntry = .ok r
          ∧ CSMap.find r.1.m_csByName (some name) = some newEntry
          ∧ CSMap.find r.1.m_csByNameKeyid
              (some name, keyValue (GetKeyidOrRestriction cPacket))
              = some newEntry := by
  have hno : hasNameWithSegments workItem.packet.message = false := by
    simp [hasNameWithSegments, hname, hzero]
  have h1 : ServiceMatchInterest_find s workItem
      = (if workItem.packet.message.HasKeyidRestriction then
          CSMap.find s.m_csByHashKeyid (hashKeyidKey workItem.packet)
        else CSMap.find s.m_csByHash (hashKey workItem.packet)) := by
    simp [ServiceMatchInterest_find, hno]
  have hsome : cPacket.message.name.isSome = true := by simp [honame]
  have hnk : nameKey cPacket = some name := honame
  have hnkk : nameKeyidKey cPacket
      = (some name, keyValue (GetKeyidOrRestriction cPacket)) := by
    simp [nameKeyidKey, honame]
  refine ⟨h1, h1.trans rfl, ?_, ?_⟩
  · intro byName byNameKeyid
    simp [ServiceMatchInterest_find, hno]
  · refine ⟨({ s with
        m_csByHash := CSMap.assign s.m_csByHash (hashKey cPacket) newEntry
        m_csByName := CSMap.assign s.m_csByName (nameKey cPacket) newEntry
        m_csByNameKeyid := CSMap.assign s.m_csByNameKeyid (nameKeyidKey cPacket) newEntry },
      true), ?_, ?_, ?_⟩
    · simp [AddMapEntry, hobj, hsome]
    · rw [← hnk]; exact CSMap.find_assign_self _ _ _
    · rw [← hnkk]; exact CSMap.find_assign_self _ _ _

/-- C20 witness: a request and a content object that both carry the name with zero
segments. -/
theorem ServiceMatchInterest_find_zero_segments_witness :
    ServiceMatchInterest_find storeWithOneNamed (workItemOf (interest (some ⟨[]⟩) none none))
        = (if (workItemOf (interest (some ⟨[]⟩) none none)).packet.message.HasKeyidRestriction
          then
            CSMap.find storeWithOneNamed.m_csByHashKeyid
              (hashKeyidKey (workItemOf (interest (some ⟨[]⟩) none none)).packet)
          else CSMap.find storeWithOneNamed.m_csByHash
              (hashKey (workItemOf (interest (some ⟨[]⟩) none none)).packet))
      ∧ ServiceMatchInterest_find storeWithOneNamed
          (workItemOf (interest (some ⟨[]⟩) none none))
        = ServiceMatchInterest_find storeWithOneNamed
            { workItemOf (interest (some ⟨[]⟩) none none) with
              packet := { (workItemOf (interest (some ⟨[]⟩) none none)).packet with
                message := { (workItemOf (interest (some ⟨[]⟩) none none)).packet.message with
                  name := none } } }
      ∧ (∀ byName byNameKeyid,
          ServiceMatchInterest_find
              { storeWithOneNamed with m_csByName := byName, m_csByNameKeyid := byNameKeyid }
              (workItemOf (interest (some ⟨[]⟩) none none))
            = ServiceMatchInterest_find storeWithOneNamed
                (workItemOf (interest (some ⟨[]⟩) none none)))
      ∧ ∃ r, AddMapEntry storeWithOneNamed (contentObject (some ⟨[]⟩) [8]) 1 = .ok r
          ∧ CSMap.find r.1.m_csByName (some ⟨[]⟩) = some 1
          ∧ CSMap.find r.1.m_csByNameKeyid
              (some ⟨[]⟩, keyValue (GetKeyidOrRestriction (contentObject (some ⟨[]⟩) [8]))) = some 1 :=
  ServiceMatchInterest_find_zero_segments storeWithOneNamed
    (workItemOf (interest (some ⟨[]⟩) none none)) ⟨[]⟩ (contentObject (some ⟨[]⟩) [8]) 1
    (by decide) (by decide) (by decide) (by decide)

/-! ## C19: the lookup callback -/

/-- In a reachable store with a registered lookup callback, a serviced lookup of an
Interest whose find is not fatal returns and hands the callback exactly one work item,
the one it was given (same packet, same connections); that work item carries a content
store packet iff the consulted index yields an entry that is valid, and then it is the
packet of that entry. -/
theorem ServiceMatchInterest_callback_once (st : EntryStatus)
    (s : CCNxStandardContentStore) (workItem : CCNxStandardForwarderWorkItem)
    (hreach : Reachable s)
    (hcb : s.m_matchInterestCallback = .User)
    (hp : workItem.packet.packetType = .Interest)
    (hm : workItem.packet.message.messageType = .Interest)
    (hnf : ServiceMatchInterest_findFatal s workItem = false)
    (hfresh : workItem.contentStorePacket = none) :
    ∃ s' out, ServiceMatchInterest st s workItem = .ok (s', [out])
      ∧ out.packet = workItem.packet ∧ out.connectionsList = workItem.connectionsList
      ∧ (out.contentStorePacket.isSome = true ↔
          ∃ entry e, (strategyOf workItem.packet).consult s workItem.packet = some entry
            ∧ s.m_entries[entry]? = some e ∧ IsEntryValid st e = true)
      ∧ ∀ p, out.contentStorePacket = some p →
          ∃ entry e, (strategyOf workItem.packet).consult s workItem.packet = some entry
            ∧ s.m_entries[entry]? = some e ∧ e.packet = p := by
  rw [← ServiceMatchInterest_find_eq_consult]
  cases hf : ServiceMatchInterest_find s workItem with
  | none =>
    refine ⟨s, workItem, ?_, rfl, rfl, ?_, ?_⟩
    · simp [ServiceMatchInterest, hp, hm, hnf, hf, hcb, Callback.invoke]
    · simp [hfresh]
    · simp [hfresh]
  | some entry =>
    obtain ⟨-, e, he, -⟩ := hreach.inv.find_mem workItem entry hf
    by_cases hv : IsEntryValid st e = true
    · refine ⟨_, _, ServiceMatchInterest_valid st s workItem entry e hcb hp hm hnf hf he hv,
        rfl, rfl, ?_, ?_⟩
      · simp only [CCNxStandardForwarderWorkItem.SetContentStorePacket, Option.isSome_some,
          true_iff]
        exact ⟨entry, e, rfl, he, hv⟩
      · intro p hpk
        simp only [CCNxStandardForwarderWorkItem.SetContentStorePacket,
          Option.some.injEq] at hpk
        exact ⟨entry, e, rfl, he, hpk⟩
    · refine ⟨(RemoveContentObject s e.packet).1, workItem, ?_, rfl, rfl, ?_, ?_⟩
      · have hcb1 := (RemoveContentObject_frame s e.packet).2.2.1
        simp [ServiceMatchInterest, hp, hm, hnf, hf, he, hv, hcb1, hcb, Callback.invoke]
      · simp only [hfresh, Option.isSome_none, Bool.false_eq_true, false_iff]
        rintro ⟨entry', e', hentry, he', hv'⟩
        simp only [Option.some.injEq] at hentry
        subst hentry
        rw [he] at he'
        cases he'
        exact hv hv'
      · simp [hfresh]

/-- C19 (code evaluated at the failing input): the reachable store holds two named
objects and both callbacks are registered.  A lookup of a request whose name has no
segment, without keyid restriction and without hash restriction, is serviced: the find in
byHash dereferences the null hash restriction, the lookup is fatal and the callback is
never invoked.  The lookup of a stored name hands the callback one work item. -/
theorem ServiceMatchInterest_callback_not_invoked :
    Reachable storeWithTwoNamed
      ∧ storeWithTwoNamed.m_matchInterestCallback = .User
      ∧ storeWithTwoNamed.m_addContentObjectCallback = .User
      ∧ (workItemOf (interest (some ⟨[]⟩) none none)).packet.packetType = .Interest
      ∧ GetHashOrRestriction (interest (some ⟨[]⟩) none none) = .error .nullPointer
      ∧ ServiceMatchInterest_findFatal storeWithTwoNamed
          (workItemOf (interest (some ⟨[]⟩) none none)) = true
      ∧ ServiceMatchInterest allValid storeWithTwoNamed
          (workItemOf (interest (some ⟨[]⟩) none none)) = .error .nullPointer
      ∧ (ServiceMatchInterest allValid storeWithTwoNamed
            (workItemOf (interest (some ⟨[[1]]⟩) none none))).map Prod.snd
          = .ok [(workItemOf (interest (some ⟨[[1]]⟩) none none)).SetContentStorePacket
                  (contentObject (some ⟨[[1]]⟩) [7])] :=
  ⟨(Reachable.init 2 .User .User).storeAfter _, rfl, rfl, rfl, rfl, rfl, rfl, rfl⟩

/-! ## Bounds on the sizes -/

theorem CSMap.keys_filter_nodup {κ : Type} (m : CSMap κ) (f : κ × Nat → Bool)
    (h : (CSMap.keys m).Nodup) : (CSMap.keys (m.filter f)).Nodup :=
  List.Nodup.sublist ((List.filter_sublist m).map Prod.fst) h

theorem CSMap.keys_assign_nodup {κ : Type} [DecidableEq κ] (m : CSMap κ) (k : κ) (v : Nat)
    (h : (CSMap.keys m).Nodup) : (CSMap.keys (CSMap.assign m k v)).Nodup := by
  have hnot : k ∉ CSMap.keys (m.filter (fun kv => !decide (kv.1 = k))) :=
    (CSMap.find_eq_none_iff _ _).mp (CSMap.find_filter_self m k)
  exact List.nodup_cons.mpr ⟨hnot, CSMap.keys_filter_nodup m _ h⟩

theorem RemoveContentObject_byHash (s : CCNxStandardContentStore) (p : CCNxPacket) :
    (RemoveContentObject s p).1.m_csByHash
      = s.m_csByHash.filter (fun kv => !decide (kv.1 = hashKey p)) := by
  unfold RemoveContentObject
  simp only [CSMap.erase, DeleteLruListPacket]
  split_ifs <;> rfl

theorem AddMapEntry_byHash (s : CCNxStandardContentStore) (p : CCNxPacket) (newEntry : Nat)
    (r : CCNxStandardContentStore × Bool) (h : AddMapEntry s p newEntry = .ok r) :
    r.1.m_csByHash = CSMap.assign s.m_csByHash (hashKey p) newEntry := by
  unfold AddMapEntry at h
  split_ifs at h <;> cases h <;> rfl

theorem RemoveContentObject_lru_of_true (s : CCNxStandardContentStore) (p : CCNxPacket)
    (h : (RemoveContentObject s p).2 = true) :
    (RemoveContentObject s p).1.m_lruList
      = s.m_lruList.eraseP (wrapsPacket s.m_entries p) := by
  unfold RemoveContentObject at h ⊢
  simp only [CSMap.erase, DeleteLruListPacket] at h ⊢
  by_cases h1 : (CSMap.find s.m_csByHash (hashKey p)).isSome = true
  · by_cases hn : p.message.name.isSome = true
    · by_cases h3 : (CSMap.find s.m_csByNameKeyid (nameKeyidKey p)).isSome = true
      · simp [h1, hn, h3]
      · simp [h1, hn, h3] at h
    · by_cases h3 : (CSMap.find s.m_csByHashKeyid (hashKeyidKey p)).isSome = true
      · simp [h1, hn, h3]
      · simp [h1, hn, h3] at h
  · simp [h1] at h

theorem LruList_GetTailPacket_wraps (entries : List CCNxStandardContentStoreEntry)
    (l : List Nat) (tailPacket : CCNxPacket)
    (h : LruList_GetTailPacket entries l = some tailPacket) :
    ∃ t ∈ l, wrapsPacket entries tailPacket t = true := by
  unfold LruList_GetTailPacket at h
  cases hl : l.getLast? with
  | none => simp [hl] at h
  | some t =>
    simp only [hl, Option.map_eq_some'] at h
    obtain ⟨e, he, hpk⟩ := h
    exact ⟨t, List.mem_of_getLast?_eq_some hl, by simp [wrapsPacket, he, hpk]⟩

theorem ServiceMatchInterest_bounds (st : EntryStatus) (s s' : CCNxStandardContentStore)
    (workItem : CCNxStandardForwarderWorkItem) (cbs : List CCNxStandardForwarderWorkItem)
    (hinv : StoreInv s) (hb : StoreBounds s)
    (h : ServiceMatchInterest st s workItem = .ok (s', cbs)) :
    StoreBounds s' ∧ s'.m_objectCapacity = s.m_objectCapacity := by
  rcases ServiceMatchInterest_cases st s s' workItem cbs h with
    ⟨-, rfl, -⟩ | ⟨entry, e, hf, he, -, rfl, -⟩ | ⟨entry, e, -, -, -, rfl, -⟩
  · exact ⟨hb, rfl⟩
  · have hmem := (hinv.find_mem workItem entry hf).1
    refine ⟨⟨hb.keys_nodup, ?_⟩, rfl⟩
    have hpos := List.length_pos_of_mem hmem
    have hle := hb.count_le
    simp only [LruList_RefreshEntry, List.length_cons, List.length_erase_of_mem hmem]
    omega
  · have hfr := RemoveContentObject_frame s e.packet
    refine ⟨⟨?_, ?_⟩, hfr.2.1⟩
    · rw [RemoveContentObject_byHash]
      exact CSMap.keys_filter_nodup _ _ hb.keys_nodup
    · rw [hfr.2.1]
      exact le_trans hfr.2.2.2.2.length_le hb.count_le

theorem ServiceAddContentObject_bounds (s : CCNxStandardContentStore)
    (workItem : CCNxStandardForwarderWorkItem) (o : AddContentObjectOutcome)
    (hb : StoreBounds s) (h : ServiceAddContentObject s workItem = .ok o) :
    StoreBounds o.store ∧ o.store.m_objectCapacity = s.m_objectCapacity := by
  rcases ServiceAddContentObject_cases s workItem o h with
    ⟨-, hs, -⟩ | ⟨-, s1, r1, hev, hadd⟩
  · rw [hs]; exact ⟨hb, rfl⟩
  · -- what making room leaves
    have h1 : (CSMap.keys s1.m_csByHash).Nodup ∧ s1.m_objectCapacity = s.m_objectCapacity
        ∧ s1.m_lruList.length ≤ s.m_objectCapacity
        ∧ (r1 = true → s1.m_lruList.length + 1 ≤ s.m_objectCapacity) := by
      rcases ServiceAddContentObject_evict_cases _ s1 r1 hev with
        ⟨hroom, rfl, -⟩ | ⟨hfull, tailPacket, htail, hrem⟩
      · exact ⟨hb.keys_nodup, rfl, hb.count_le, fun _ => hroom⟩
      · have hfr := RemoveContentObject_frame
          { s with m_entries := s.m_entries
              ++ [CCNxStandardContentStoreEntry.Create workItem.packet] } tailPacket
        have hbh := RemoveContentObject_byHash
          { s with m_entries := s.m_entries
              ++ [CCNxStandardContentStoreEntry.Create workItem.packet] } tailPacket
        have hlt := RemoveContentObject_lru_of_true
          { s with m_entries := s.m_entries
              ++ [CCNxStandardContentStoreEntry.Create workItem.packet] } tailPacket
        rw [hrem] at hfr hbh hlt
        simp only [] at hfr hbh hlt
        refine ⟨?_, hfr.2.1, le_trans hfr.2.2.2.2.length_le hb.count_le, ?_⟩
        · rw [hbh]; exact CSMap.keys_filter_nodup _ _ hb.keys_nodup
        · intro hr
          obtain ⟨t, htmem, htw⟩ := LruList_GetTailPacket_wraps _ _ _ htail
          rw [hlt hr, List.length_eraseP_of_mem htmem htw]
          have hpos : 0 < s.m_lruList.length := List.length_pos_of_mem htmem
          have hle := hb.count_le
          show s.m_lruList.length - 1 + 1 ≤ s.m_objectCapacity
          omega
    obtain ⟨hk1, hcap1, hlen1, hlen1'⟩ := h1
    cases r1 with
    | false =>
      rw [ServiceAddContentObject_add_false] at hadd
      simp only [Except.ok.injEq, Prod.mk.injEq] at hadd
      rw [← hadd.1]
      exact ⟨⟨hk1, by rw [hcap1]; exact hlen1⟩, hcap1⟩
    | true =>
      rw [ServiceAddContentObject_add_true] at hadd
      obtain ⟨-, -, hlru3, hcap3, -⟩ := AddMapEntry_frame _ _ _ _ hadd
      have hbh3 := AddMapEntry_byHash _ _ _ _ hadd
      simp only [] at hlru3 hcap3 hbh3
      refine ⟨⟨?_, ?_⟩, by rw [hcap3, hcap1]⟩
      · rw [hbh3]; exact CSMap.keys_assign_nodup _ _ _ hk1
      · rw [hlru3, hcap3, hcap1]
        simpa using hlen1' rfl

/-- Every reachable state satisfies the bounds. -/
theorem Reachable.bounds {s : CCNxStandardContentStore} (h : Reachable s) : StoreBounds s := by
  induction h with
  | init capacity matchCb addCb =>
    exact ⟨List.nodup_nil, Nat.zero_le _⟩
  | matchInterest st s s' workItem cbs hr hstep ih =>
    exact (ServiceMatchInterest_bounds st s s' workItem cbs hr.inv ih hstep).1
  | addContentObject s workItem o _ hstep ih =>
    exact (ServiceAddContentObject_bounds s workItem o ih hstep).1

/-- With the invariant and distinct keys, byHash has no more bindings than the LRU
list has entries. -/
theorem StoreInv.byHash_size_le {s : CCNxStandardContentStore} (hinv : StoreInv s)
    (hk : (CSMap.keys s.m_csByHash).Nodup) :
    CSMap.size s.m_csByHash ≤ s.m_lruList.length := by
  have hm : s.m_csByHash.Nodup := List.Nodup.of_map Prod.fst hk
  have hinj : ∀ x ∈ s.m_csByHash, ∀ y ∈ s.m_csByHash, x.2 = y.2 → x = y := by
    intro x hx y hy hxy
    obtain ⟨-, ex, hex, hkx⟩ := hinv.byHash_ok x hx
    obtain ⟨-, ey, hey, hky⟩ := hinv.byHash_ok y hy
    rw [hxy, hey] at hex
    cases hex
    exact Prod.ext (by rw [← hkx, ← hky]) hxy
  have hvals : (s.m_csByHash.map Prod.snd).Nodup := List.Nodup.map_on hinj hm
  have hsub : s.m_csByHash.map Prod.snd ⊆ s.m_lruList := by
    intro h hh
    obtain ⟨kh, hkh, rfl⟩ := List.mem_map.mp hh
    exact (hinv.byHash_ok kh hkh).1
  have := (hvals.subperm hsub).length_le
  simpa [CSMap.size] using this

/-! ## C15: the size of byHash and the capacity -/

/-- C15: in every state reachable from an empty store of any capacity by serviced
lookups and insertions, byHash binds each key once and the number of its keys is at
most the number of entries of the eviction list, which is at most the configured
capacity. -/
theorem Reachable_byHash_size_le_capacity (s : CCNxStandardContentStore)
    (hreach : Reachable s) :
    CSMap.size s.m_csByHash ≤ GetObjectCapacity s
      ∧ (CSMap.keys s.m_csByHash).Nodup
      ∧ CSMap.size s.m_csByHash ≤ GetObjectCount s
      ∧ GetObjectCount s ≤ GetObjectCapacity s := by
  have hb := hreach.bounds
  have hle := hreach.inv.byHash_size_le hb.keys_nodup
  exact ⟨le_trans hle hb.count_le, hb.keys_nodup, hle, hb.count_le⟩

/-- C15 witness: the store of capacity 2 that holds two objects. -/
theorem Reachable_byHash_size_le_capacity_witness :
    Reachable storeWithTwoNamed
      ∧ (CSMap.size storeWithTwoNamed.m_csByHash ≤ GetObjectCapacity storeWithTwoNamed
        ∧ (CSMap.keys storeWithTwoNamed.m_csByHash).Nodup
        ∧ CSMap.size storeWithTwoNamed.m_csByHash ≤ GetObjectCount storeWithTwoNamed
        ∧ GetObjectCount storeWithTwoNamed ≤ GetObjectCapacity storeWithTwoNamed) :=
  ⟨(Reachable.init 2 .User .User).storeAfter _,
    Reachable_byHash_size_le_capacity storeWithTwoNamed
      ((Reachable.init 2 .User .User).storeAfter _)⟩

/-! ## C16: an insertion that is rejected -/

theorem RemoveContentObject_result_entries (s : CCNxStandardContentStore)
    (entries : List CCNxStandardContentStoreEntry) (p : CCNxPacket) :
    (RemoveContentObject { s with m_entries := entries } p).2 = (RemoveContentObject s p).2 := by
  rw [Bool.eq_iff_iff, RemoveContentObject_result_iff, RemoveContentObject_result_iff]

theorem LruList_GetTailPacket_append (entries extra : List CCNxStandardContentStoreEntry)
    (l : List Nat) (hvalid : ∀ h ∈ l, h < entries.length) :
    LruList_GetTailPacket (entries ++ extra) l = LruList_GetTailPacket entries l := by
  unfold LruList_GetTailPacket
  cases hl : l.getLast? with
  | none => rfl
  | some t =>
    have hlt := hvalid t (List.mem_of_getLast?_eq_some hl)
    simp only [List.getElem?_append_left hlt]

theorem LruList_GetTailPacket_some (entries : List CCNxStandardContentStoreEntry)
    (l : List Nat) (hvalid : ∀ h ∈ l, h < entries.length) (hpos : 0 < l.length) :
    ∃ tailPacket, LruList_GetTailPacket entries l = some tailPacket := by
  unfold LruList_GetTailPacket
  cases hl : l.getLast? with
  | none =>
    rw [List.getLast?_eq_none_iff] at hl
    rw [hl] at hpos
    simp at hpos
  | some t =>
    have hlt := hvalid t (List.mem_of_getLast?_eq_some hl)
    exact ⟨entries[t].packet, by simp [List.getElem?_eq_getElem hlt]⟩

theorem CSMap.find_filter_none {κ : Type} [DecidableEq κ] (m : CSMap κ) (k : κ)
    (f : κ × Nat → Bool) (h : CSMap.find m k = none) : CSMap.find (m.filter f) k = none := by
  rw [CSMap.find_eq_none_iff] at h ⊢
  intro hmem
  exact h (((List.filter_sublist m).map Prod.fst).subset hmem)

/-- C16 (code evaluated at the failing input): a reachable store of capacity 2 rejects
an insertion.  Two objects with the same name are inserted, the older one is looked up
by its hash, and a third object is inserted, which evicts the newer of the two and
erases the name keys the two share.  The store then holds two objects; the insertion of
a fourth object, not stored, is serviced with result false: the removal of the tail
object returns false, the new object is not in byHash and not in the eviction list, and
the tail object has left byHash but not the eviction list.  The same insertion into the
store that holds two objects with different names evicts the older one and stores the
new object. -/
theorem ServiceAddContentObject_rejects :
    Reachable storeAfterSharedNameEviction
      ∧ 1 ≤ GetObjectCapacity storeAfterSharedNameEviction
      ∧ storeAfterSharedNameEviction.m_lruList = [2, 0]
      ∧ storeAfterSharedNameEviction.m_csByHash = [(some [9], 2), (some [7], 0)]
      ∧ hashKey (contentObject (some ⟨[[3]]⟩) [10])
          ∉ CSMap.keys storeAfterSharedNameEviction.m_csByHash
      ∧ (ServiceAddContentObject storeAfterSharedNameEviction
            (workItemOf (contentObject (some ⟨[[3]]⟩) [10]))).map
          (fun o => (o.result,
            FindEntryInHashMap o.store (contentObject (some ⟨[[3]]⟩) [10]),
            o.store.m_lruList, o.store.m_csByHash))
        = .ok (false, none, [2, 0], [(some [9], 2)])
      ∧ (ServiceAddContentObject storeWithTwoNamed
            (workItemOf (contentObject (some ⟨[[3]]⟩) [10]))).map
          (fun o => (o.result,
            FindEntryInHashMap o.store (contentObject (some ⟨[[3]]⟩) [10]),
            o.store.m_lruList, o.store.m_csByHash))
        = .ok (true, some 2, [2, 1], [(some [10], 2), (some [8], 1)]) := by
  refine ⟨?_, by decide, rfl, rfl, by decide, rfl, rfl⟩
  exact (((Reachable.init 2 .User .User).storeAfter _).storeAfterLookup _ _).storeAfter _

/-! ## C21: removing a nameless object -/

theorem RemoveContentObject_nameless_eq (s : CCNxStandardContentStore) (p : CCNxPacket)
    (hname : p.message.name = none) (hk : s.m_csByHashKeyid = []) :
    RemoveContentObject s p
      = ({ s with m_csByHash := s.m_csByHash.filter (fun kv => !decide (kv.1 = hashKey p)) },
          false) := by
  have hn : p.message.name.isSome = false := by simp [hname]
  have hext : ∀ (m : CSMap (Option CCNxByteArray)),
      ({ s with m_csByHash := m, m_csByHashKeyid := [] } : CCNxStandardContentStore)
        = { s with m_csByHash := m } := by
    intro m
    cases s
    simp only [] at hk
    subst hk
    rfl
  unfold RemoveContentObject
  simp only [CSMap.erase, DeleteLruListPacket]
  by_cases h1 : (CSMap.find s.m_csByHash (hashKey p)).isSome = true
  · simp [h1, hn, hk, CSMap.find, hext]
  · simp [h1]

theorem AddMapEntry_byNameKeyid (s : CCNxStandardContentStore) (p : CCNxPacket)
    (newEntry : Nat) (r : CCNxStandardContentStore × Bool)
    (h : AddMapEntry s p newEntry = .ok r) :
    r.1.m_csByNameKeyid = CSMap.assign s.m_csByNameKeyid (nameKeyidKey p) newEntry := by
  unfold AddMapEntry at h
  split_ifs at h <;> cases h <;> rfl

/-- C21: a content object without a name is stored by a serviced insertion (result
true) in a reachable store: its key is bound in byHash and in byNameKeyid to its new
entry, which is in the eviction list, and byHashKeyid is empty.  `RemoveContentObject`
of it then returns false, erases its key from byHash, and leaves the eviction list and
byNameKeyid as they are: the entry is still in the list and the key still in
byNameKeyid.  The same holds for its removal in any reachable state `later`. -/
theorem RemoveContentObject_nameless (s later : CCNxStandardContentStore)
    (workItem : CCNxStandardForwarderWorkItem) (o : AddContentObjectOutcome)
    (hreach : Reachable s) (hlater : Reachable later)
    (hname : workItem.packet.message.name = none)
    (ho : ServiceAddContentObject s workItem = .ok o)
    (hres : o.result = true) :
    (FindEntryInHashMap o.store workItem.packet = some s.m_entries.length
        ∧ CSMap.find o.store.m_csByNameKeyid (nameKeyidKey workItem.packet)
            = some s.m_entries.length
        ∧ s.m_entries.length ∈ o.store.m_lruList
        ∧ o.store.m_csByHashKeyid = [])
      ∧ ((RemoveContentObject o.store workItem.packet).2 = false
        ∧ FindEntryInHashMap (RemoveContentObject o.store workItem.packet).1 workItem.packet
            = none
        ∧ s.m_entries.length ∈ (RemoveContentObject o.store workItem.packet).1.m_lruList
        ∧ CSMap.find (RemoveContentObject o.store workItem.packet).1.m_csByNameKeyid
            (nameKeyidKey workItem.packet) = some s.m_entries.length
        ∧ (RemoveContentObject o.store workItem.packet).1.m_csByHashKeyid = [])
      ∧ ((RemoveContentObject later workItem.packet).2 = false
        ∧ FindEntryInHashMap (RemoveContentObject later workItem.packet).1 workItem.packet
            = none
        ∧ (RemoveContentObject later workItem.packet).1.m_lruList = later.m_lruList
        ∧ (RemoveContentObject later workItem.packet).1.m_csByNameKeyid
            = later.m_csByNameKeyid) := by
  have hreach' : Reachable o.store := Reachable.addContentObject s workItem o hreach ho
  have hk' := hreach'.inv.byHashKeyid_empty
  -- what the insertion stored
  have hstored : FindEntryInHashMap o.store workItem.packet = some s.m_entries.length
      ∧ CSMap.find o.store.m_csByNameKeyid (nameKeyidKey workItem.packet)
          = some s.m_entries.length
      ∧ s.m_entries.length ∈ o.store.m_lruList := by
    rcases ServiceAddContentObject_cases s workItem o ho with
      ⟨-, -, hfalse⟩ | ⟨-, s1, r1, hev, hadd⟩
    · rw [hres] at hfalse
      cases hfalse
    · cases r1 with
      | false =>
        rw [ServiceAddContentObject_add_false] at hadd
        simp only [Except.ok.injEq, Prod.mk.injEq] at hadd
        rw [hres] at hadd
        cases hadd.2
      | true =>
        rw [ServiceAddContentObject_add_true] at hadd
        have hbh := AddMapEntry_byHash _ _ _ _ hadd
        have hbk := AddMapEntry_byNameKeyid _ _ _ _ hadd
        have hlru := (AddMapEntry_frame _ _ _ _ hadd).2.2.1
        simp only [] at hbh hbk hlru
        refine ⟨?_, ?_, ?_⟩
        · rw [FindEntryInHashMap, hbh]
          exact CSMap.find_assign_self _ _ _
        · rw [hbk]
          exact CSMap.find_assign_self _ _ _
        · rw [hlru]
          exact List.mem_cons_self _ _
  refine ⟨⟨hstored.1, hstored.2.1, hstored.2.2, hk'⟩, ?_, ?_⟩
  · rw [RemoveContentObject_nameless_eq o.store workItem.packet hname hk']
    exact ⟨rfl, CSMap.find_filter_self _ _, hstored.2.2, hstored.2.1, hk'⟩
  · rw [RemoveContentObject_nameless_eq later workItem.packet hname
      hlater.inv.byHashKeyid_empty]
    exact ⟨rfl, CSMap.find_filter_self _ _, rfl, rfl⟩

/-- C21 witness: a nameless object is inserted into an empty store of capacity 2; the
later state is the one after a second, named, object was inserted. -/
theorem RemoveContentObject_nameless_witness :
    ServiceAddContentObject (emptyStore 2 .User .User) (workItemOf (contentObject none [7]))
        = .ok { store := storeWithOneNameless 2, result := true,
                callbacks := [workItemOf (contentObject none [7])] }
      ∧ ((FindEntryInHashMap (storeWithOneNameless 2) (contentObject none [7]) = some 0
          ∧ CSMap.find (storeWithOneNameless 2).m_csByNameKeyid
              (nameKeyidKey (contentObject none [7])) = some 0
          ∧ 0 ∈ (storeWithOneNameless 2).m_lruList
          ∧ (storeWithOneNameless 2).m_csByHashKeyid = [])
        ∧ ((RemoveContentObject (storeWithOneNameless 2) (contentObject none [7])).2 = false
          ∧ FindEntryInHashMap
              (RemoveContentObject (storeWithOneNameless 2) (contentObject none [7])).1
              (contentObject none [7]) = none
          ∧ 0 ∈ (RemoveContentObject (storeWithOneNameless 2)
              (contentObject none [7])).1.m_lruList
          ∧ CSMap.find (RemoveContentObject (storeWithOneNameless 2)
              (contentObject none [7])).1.m_csByNameKeyid
              (nameKeyidKey (contentObject none [7])) = some 0
          ∧ (RemoveContentObject (storeWithOneNameless 2)
              (contentObject none [7])).1.m_csByHashKeyid = [])
        ∧ ((RemoveContentObject (storeAfter (storeWithOneNameless 2) [contentObject (some ⟨[[1]]⟩) [8]])
              (contentObject none [7])).2 = false
          ∧ FindEntryInHashMap
              (RemoveContentObject (storeAfter (storeWithOneNameless 2) [contentObject (some ⟨[[1]]⟩) [8]])
                (contentObject none [7])).1
              (contentObject none [7]) = none
          ∧ (RemoveContentObject (storeAfter (storeWithOneNameless 2) [contentObject (some ⟨[[1]]⟩) [8]])
              (contentObject none [7])).1.m_lruList
            = (storeAfter (storeWithOneNameless 2) [contentObject (some ⟨[[1]]⟩) [8]]).m_lruList
          ∧ (RemoveContentObject (storeAfter (storeWithOneNameless 2) [contentObject (some ⟨[[1]]⟩) [8]])
              (contentObject none [7])).1.m_csByNameKeyid
            = (storeAfter (storeWithOneNameless 2) [contentObject (some ⟨[[1]]⟩) [8]]).m_csByNameKeyid)) :=
  ⟨rfl,
    RemoveContentObject_nameless (emptyStore 2 .User .User)
      (storeAfter (storeWithOneNameless 2) [contentObject (some ⟨[[1]]⟩) [8]])
      (workItemOf (contentObject none [7]))
      { store := storeWithOneNameless 2, result := true,
        callbacks := [workItemOf (contentObject none [7])] }
      (Reachable.init 2 .User .User)
      (((Reachable.init 2 .User .User).storeAfter _).storeAfter _)
      rfl rfl rfl⟩

/-! ## C22: the sizes of byHash, the eviction list and the capacity -/

/-- C22: in every state reachable from an empty store by serviced lookups and
insertions, the number of keys of byHash is at most the number of entries of the
eviction list, and the eviction list holds no more entries than the capacity. -/
theorem Reachable_byHash_le_lru_le_capacity (s : CCNxStandardContentStore)
    (hreach : Reachable s) :
    CSMap.size s.m_csByHash ≤ LruList_GetSize s.m_lruList
      ∧ LruList_GetSize s.m_lruList ≤ s.m_objectCapacity :=
  ⟨hreach.inv.byHash_size_le hreach.bounds.keys_nodup, hreach.bounds.count_le⟩

/-- C22 witness: the reachable state in which a nameless object has left byHash and
not the eviction list, where the first inequality is strict. -/
theorem Reachable_byHash_le_lru_le_capacity_witness :
    Reachable (storeAfterLookup allExpired (storeWithOneNameless 2)
        (workItemOf (interest none none (some [7]))))
      ∧ (CSMap.size (storeAfterLookup allExpired (storeWithOneNameless 2)
            (workItemOf (interest none none (some [7])))).m_csByHash
          ≤ LruList_GetSize (storeAfterLookup allExpired (storeWithOneNameless 2)
              (workItemOf (interest none none (some [7])))).m_lruList
        ∧ LruList_GetSize (storeAfterLookup allExpired (storeWithOneNameless 2)
              (workItemOf (interest none none (some [7])))).m_lruList
          ≤ (storeAfterLookup allExpired (storeWithOneNameless 2)
              (workItemOf (interest none none (some [7])))).m_objectCapacity) :=
  ⟨((Reachable.init 2 .User .User).storeAfter _).storeAfterLookup _ _,
    Reachable_byHash_le_lru_le_capacity _
      (((Reachable.init 2 .User .User).storeAfter _).storeAfterLookup _ _)⟩

end CCNx
